import Mathlib

/-! Formal model of the calm-copilot perception-to-narration pipeline
(`app6.py`): object tracker (`SimpleTracker`), mental map (`MentalMap3D`),
prioritization (`prioritize_objects`), situation analysis
(`analyze_situation`), narration generation
(`generate_contextual_narration`) and the TTS debounce/queue logic
(`IntelligentTTSEngine.speak`).

Python floats are modelled as exact rationals where the code only adds,
subtracts, multiplies, divides and compares, and as real numbers where the
code takes square roots (`np.linalg.norm`) or arctangents (`np.arctan2`).
Python dicts are modelled as insertion-ordered association lists. -/

namespace CalmCopilot

/-- Association lists over `Nat` keys model Python dicts with int keys
(CPython dicts preserve insertion order). -/
abbrev AList (α : Type) := List (Nat × α)

/-- The keys of an association list, in order. -/
def keys {α : Type} (l : AList α) : List Nat := l.map Prod.fst

theorem keys_nil {α : Type} : keys ([] : AList α) = [] := rfl

theorem keys_cons {α : Type} (p : Nat × α) (l : AList α) :
    keys (p :: l) = p.1 :: keys l := rfl

theorem mem_keys_of_mem {α : Type} {l : AList α} {k : Nat} {v : α}
    (h : (k, v) ∈ l) : k ∈ keys l :=
  List.mem_map.2 ⟨(k, v), h, rfl⟩

/-- First-match lookup; on a duplicate-free list this is Python dict
lookup (`d[k]` / `d.get(k)`). -/
def alookup {α : Type} : AList α → Nat → Option α
  | [], _ => none
  | p :: rest, k => if p.1 = k then some p.2 else alookup rest k

/-- Python dict assignment `d[k] = v`: overwrite in place if the key is
present, else append at the end. -/
def aset {α : Type} : AList α → Nat → α → AList α
  | [], k, v => [(k, v)]
  | p :: rest, k, v => if p.1 = k then (k, v) :: rest else p :: aset rest k v

theorem alookup_aset_self {α : Type} (l : AList α) (k : Nat) (v : α) :
    alookup (aset l k v) k = some v := by
  induction l with
  | nil => simp [aset, alookup]
  | cons p rest ih =>
    by_cases h : p.1 = k
    · simp [aset, h, alookup]
    · simp [aset, h, alookup, ih]

theorem alookup_aset_ne {α : Type} (l : AList α) {k k' : Nat} (v : α)
    (h : k' ≠ k) : alookup (aset l k v) k' = alookup l k' := by
  have hk : ¬ k = k' := fun he => h he.symm
  induction l with
  | nil => simp [aset, alookup, hk]
  | cons p rest ih =>
    by_cases hp : p.1 = k
    · simp [aset, hp, alookup, hk]
    · simp [aset, hp, alookup, ih]

theorem alookup_mem {α : Type} {l : AList α} {k : Nat} {v : α}
    (h : alookup l k = some v) : (k, v) ∈ l := by
  induction l with
  | nil => simp [alookup] at h
  | cons p rest ih =>
    obtain ⟨a, b⟩ := p
    by_cases hp : a = k
    · simp [alookup, hp] at h
      subst hp
      subst h
      simp
    · simp [alookup, hp] at h
      exact List.mem_cons_of_mem _ (ih h)

theorem alookup_eq_none {α : Type} {l : AList α} {k : Nat} :
    alookup l k = none ↔ k ∉ keys l := by
  induction l with
  | nil => simp [alookup, keys_nil]
  | cons p rest ih =>
    obtain ⟨a, b⟩ := p
    by_cases hp : a = k
    · simp [alookup, hp, keys_cons]
    · have hk : ¬ k = a := fun he => hp he.symm
      simp [alookup, hp, keys_cons, hk, ih]

theorem mem_keys_iff_alookup {α : Type} {l : AList α} {k : Nat} :
    k ∈ keys l ↔ ∃ v, alookup l k = some v := by
  constructor
  · intro h
    cases hl : alookup l k with
    | none => exact absurd (alookup_eq_none.1 hl) (by simp [h])
    | some v => exact ⟨v, rfl⟩
  · rintro ⟨v, hv⟩
    by_contra hm
    rw [← @alookup_eq_none _ l k] at hm
    rw [hm] at hv
    exact Option.noConfusion hv

theorem mem_alookup {α : Type} {l : AList α} {k : Nat} {v : α}
    (hnd : (keys l).Nodup) (h : (k, v) ∈ l) : alookup l k = some v := by
  induction l with
  | nil => simp at h
  | cons p rest ih =>
    obtain ⟨a, b⟩ := p
    rw [keys_cons, List.nodup_cons] at hnd
    rcases List.mem_cons.1 h with h | h
    · cases h
      simp [alookup]
    · have hk : a ≠ k := by
        intro he
        subst he
        exact hnd.1 (mem_keys_of_mem h)
      simp [alookup, hk]
      exact ih hnd.2 h

theorem keys_aset_of_mem {α : Type} {l : AList α} {k : Nat} (v : α)
    (h : k ∈ keys l) : keys (aset l k v) = keys l := by
  induction l with
  | nil => simp [keys_nil] at h
  | cons p rest ih =>
    by_cases hp : p.1 = k
    · simp [aset, hp, keys_cons]
    · have hk : ¬ k = p.1 := fun he => hp he.symm
      rw [keys_cons] at h
      have h' : k ∈ keys rest := by
        rcases List.mem_cons.1 h with h | h
        · exact absurd h hk
        · exact h
      simp [aset, hp, keys_cons, ih h']

theorem keys_aset_of_not_mem {α : Type} {l : AList α} {k : Nat} (v : α)
    (h : k ∉ keys l) : keys (aset l k v) = keys l ++ [k] := by
  induction l with
  | nil => simp [aset, keys_cons, keys_nil]
  | cons p rest ih =>
    rw [keys_cons] at h
    have hp : ¬ p.1 = k := fun he =>
      h (by simp [he])
    have h' : k ∉ keys rest := fun hm => h (by simp [hm])
    simp [aset, hp, keys_cons, ih h']

theorem nodup_keys_aset {α : Type} {l : AList α} (k : Nat) (v : α)
    (h : (keys l).Nodup) : (keys (aset l k v)).Nodup := by
  by_cases hm : k ∈ keys l
  · rw [keys_aset_of_mem v hm]
    exact h
  · rw [keys_aset_of_not_mem v hm]
    simp [List.nodup_append, h, hm]

/-! ## Geometry: bounding boxes and IoU (`SimpleTracker.iou`) -/

/-- A 2D pixel bounding box `[x1, y1, x2, y2]`. -/
structure Box where
  x1 : ℚ
  y1 : ℚ
  x2 : ℚ
  y2 : ℚ
deriving DecidableEq

/-- `max(0, boxA[2]-boxA[0]) * max(0, boxA[3]-boxA[1])`, the clamped area
of a box as computed inside `SimpleTracker.iou`. -/
def boxArea (b : Box) : ℚ := max 0 (b.x2 - b.x1) * max 0 (b.y2 - b.y1)

/-- `max(0, xB - xA) * max(0, yB - yA)` with `xA = max(x1s)`,
`xB = min(x2s)` etc., the intersection area in `SimpleTracker.iou`. -/
def interArea (boxA boxB : Box) : ℚ :=
  max 0 (min boxA.x2 boxB.x2 - max boxA.x1 boxB.x1) *
    max 0 (min boxA.y2 boxB.y2 - max boxA.y1 boxB.y1)

/-- `boxAArea + boxBArea - interArea` from `SimpleTracker.iou`. -/
def unionArea (boxA boxB : Box) : ℚ :=
  boxArea boxA + boxArea boxB - interArea boxA boxB

/-- `SimpleTracker.iou`: returns `0.0` when the union area is `<= 0`,
else `interArea / (unionArea + 1e-6)`. -/
def iou (boxA boxB : Box) : ℚ :=
  if unionArea boxA boxB ≤ 0 then 0
  else interArea boxA boxB / (unionArea boxA boxB + 1 / 1000000)

theorem interArea_comm (A B : Box) : interArea A B = interArea B A := by
  simp [interArea, min_comm, max_comm]

theorem unionArea_comm (A B : Box) : unionArea A B = unionArea B A := by
  simp [unionArea, interArea_comm, add_comm]

theorem iou_comm (A B : Box) : iou A B = iou B A := by
  simp [iou, interArea_comm, unionArea_comm]

theorem interArea_self (A : Box) : interArea A A = boxArea A := by
  simp [interArea, boxArea]

theorem unionArea_self (A : Box) : unionArea A A = boxArea A := by
  simp [unionArea, interArea_self]

theorem interArea_nonneg (A B : Box) : 0 ≤ interArea A B :=
  mul_nonneg (le_max_left _ _) (le_max_left _ _)

/-- C2: the IoU metric is symmetric; `iou(A,A)` equals
`area/(area + 1e-6)` and hence lies strictly between `1 - 1e-6/area` and
`1` for any box of positive area; IoU of two non-overlapping boxes is `0`;
and IoU of two boxes with zero union area is `0`. -/
theorem iou_properties :
    (∀ A B : Box, iou A B = iou B A) ∧
    (∀ A : Box, 0 < boxArea A →
      iou A A = boxArea A / (boxArea A + 1 / 1000000) ∧
      1 - (1 / 1000000) / boxArea A < iou A A ∧ iou A A < 1) ∧
    (∀ A B : Box,
      (A.x2 ≤ B.x1 ∨ B.x2 ≤ A.x1 ∨ A.y2 ≤ B.y1 ∨ B.y2 ≤ A.y1) →
      iou A B = 0) ∧
    (∀ A B : Box, unionArea A B = 0 → iou A B = 0) := by
  refine ⟨iou_comm, ?_, ?_, ?_⟩
  · intro A hA
    have hpos : (0 : ℚ) < boxArea A + 1 / 1000000 := by positivity
    have hne : ¬ unionArea A A ≤ 0 := by
      rw [unionArea_self]
      exact not_le.2 hA
    have heq : iou A A = boxArea A / (boxArea A + 1 / 1000000) := by
      rw [iou, if_neg hne, interArea_self, unionArea_self]
    refine ⟨heq, ?_, ?_⟩
    · have hlt : boxArea A < boxArea A + 1 / 1000000 := by linarith
      have key : boxArea A / (boxArea A + 1 / 1000000) =
          1 - (1 / 1000000) / (boxArea A + 1 / 1000000) := by
        field_simp
      have hmono : (1 : ℚ) / 1000000 / (boxArea A + 1 / 1000000) <
          1 / 1000000 / boxArea A :=
        div_lt_div_of_pos_left (by norm_num) hA hlt
      rw [heq, key]
      linarith
    · rw [heq, div_lt_one hpos]
      linarith
  · intro A B hdis
    have hinter : interArea A B = 0 := by
      rcases hdis with h | h | h | h
      · have hle : min A.x2 B.x2 - max A.x1 B.x1 ≤ 0 := by
          linarith [min_le_left A.x2 B.x2, le_max_right A.x1 B.x1]
        simp [interArea, max_eq_left hle]
      · have hle : min A.x2 B.x2 - max A.x1 B.x1 ≤ 0 := by
          linarith [min_le_right A.x2 B.x2, le_max_left A.x1 B.x1]
        simp [interArea, max_eq_left hle]
      · have hle : min A.y2 B.y2 - max A.y1 B.y1 ≤ 0 := by
          linarith [min_le_left A.y2 B.y2, le_max_right A.y1 B.y1]
        simp [interArea, max_eq_left hle]
      · have hle : min A.y2 B.y2 - max A.y1 B.y1 ≤ 0 := by
          linarith [min_le_right A.y2 B.y2, le_max_left A.y1 B.y1]
        simp [interArea, max_eq_left hle]
    by_cases hu : unionArea A B ≤ 0
    · simp [iou, hu]
    · simp [iou, hu, hinter]
  · intro A B hu
    simp [iou, hu]

theorem iou_nonneg (A B : Box) : 0 ≤ iou A B := by
  rw [iou]
  split
  · exact le_refl 0
  · rename_i h
    have hu : 0 < unionArea A B := lt_of_not_le h
    exact div_nonneg (interArea_nonneg A B) (by linarith)

/-- Witness for C2 at concrete boxes: a 2×2 box at the origin for the
positive-area part, two horizontally separated boxes for disjointness, and
two degenerate (zero-size) boxes for the zero-union part. -/
theorem iou_properties_witness :
    (0 : ℚ) < boxArea ⟨0, 0, 2, 2⟩ ∧
    iou ⟨0, 0, 2, 2⟩ ⟨0, 0, 2, 2⟩ < 1 ∧
    iou ⟨0, 0, 2, 2⟩ ⟨10, 0, 12, 2⟩ = 0 ∧
    iou ⟨0, 0, 0, 0⟩ ⟨5, 5, 5, 5⟩ = 0 := by
  have h := iou_properties
  have harea : (0 : ℚ) < boxArea ⟨0, 0, 2, 2⟩ := by
    norm_num [boxArea, max_def]
  refine ⟨harea, (h.2.1 ⟨0, 0, 2, 2⟩ harea).2.2, ?_, ?_⟩
  · exact h.2.2.1 ⟨0, 0, 2, 2⟩ ⟨10, 0, 12, 2⟩ (Or.inl (by norm_num))
  · refine h.2.2.2 ⟨0, 0, 0, 0⟩ ⟨5, 5, 5, 5⟩ ?_
    norm_num [unionArea, boxArea, interArea, max_def, min_def]

/-! ## 3D vectors with rational components -/

/-- A 3D vector (position or velocity); numpy arrays of three floats. -/
structure Vec3 where
  x : ℚ
  y : ℚ
  z : ℚ
deriving DecidableEq

/-- Componentwise subtraction (`det_pos3d - np.array(prev_pos3d)`). -/
def Vec3.sub (a b : Vec3) : Vec3 := ⟨a.x - b.x, a.y - b.y, a.z - b.z⟩

/-- Componentwise division by a scalar (`/ dt`). -/
def Vec3.divq (a : Vec3) (q : ℚ) : Vec3 := ⟨a.x / q, a.y / q, a.z / q⟩

/-- `np.zeros(3)`. -/
def Vec3.zero : Vec3 := ⟨0, 0, 0⟩

/-! ## SimpleTracker state and `assign_ids` -/

/-- A per-frame detection as handed to `SimpleTracker.assign_ids`:
bounding box, class name and projected 3D position. -/
structure Det where
  bbox : Box
  cls : String
  pos3d : Vec3

/-- A detection enriched with the velocity the tracker writes into
`det["velocity"]` before appending it to the output. -/
structure TrackedDet where
  bbox : Box
  cls : String
  pos3d : Vec3
  velocity : Vec3

/-- The mutable state of `SimpleTracker`: id counter, four parallel
per-id dictionaries, and the two constructor parameters. -/
structure TrackerState where
  next_id : Nat
  boxes_2d : AList Box
  positions_3d : AList Vec3
  timestamps : AList Nat
  ages : AList Nat
  iou_threshold : ℚ
  max_age : Nat

/-- The inner candidate loop of `assign_ids`: scan the stored boxes in
dict order, skipping ids already claimed this frame, updating the
accumulator `(matched_id, best_iou)` whenever
`iou_score > iou_threshold and iou_score > best_iou`. -/
def findBest (thr : ℚ) (dbox : Box) (used : List Nat) :
    AList Box → Option Nat × ℚ → Option Nat × ℚ
  | [], acc => acc
  | p :: rest, acc =>
    if p.1 ∈ used then findBest thr dbox used rest acc
    else if thr < iou dbox p.2 ∧ acc.2 < iou dbox p.2 then
      findBest thr dbox used rest (some p.1, iou dbox p.2)
    else findBest thr dbox used rest acc

theorem findBest_sec_mono (thr : ℚ) (dbox : Box) (used : List Nat) :
    ∀ (l : AList Box) (acc : Option Nat × ℚ),
      acc.2 ≤ (findBest thr dbox used l acc).2 := by
  intro l
  induction l with
  | nil => intro acc; simp [findBest]
  | cons p rest ih =>
    intro acc
    rw [findBest]
    split
    · exact ih acc
    · split
      · rename_i hgt
        exact le_trans (le_of_lt hgt.2) (ih (some p.1, iou dbox p.2))
      · exact ih acc

theorem findBest_bound (thr : ℚ) (dbox : Box) (used : List Nat) :
    ∀ (l : AList Box) (acc : Option Nat × ℚ) (t' : Nat) (b' : Box),
      (t', b') ∈ l → t' ∉ used → thr < iou dbox b' →
      iou dbox b' ≤ (findBest thr dbox used l acc).2 := by
  intro l
  induction l with
  | nil => intro acc t' b' hm; simp at hm
  | cons p rest ih =>
    intro acc t' b' hm hu hthr
    rcases List.mem_cons.1 hm with hm | hm
    · subst hm
      rw [findBest]
      split
      · exact absurd (by assumption) hu
      · split
        · rename_i hgt
          exact le_trans (le_of_eq rfl)
            (findBest_sec_mono thr dbox used rest (some t', iou dbox b'))
        · rename_i hgt
          push_neg at hgt
          have : iou dbox b' ≤ acc.2 := hgt hthr
          exact le_trans this (findBest_sec_mono thr dbox used rest acc)
    · rw [findBest]
      split
      · exact ih acc t' b' hm hu hthr
      · split
        · exact ih _ t' b' hm hu hthr
        · exact ih acc t' b' hm hu hthr

theorem findBest_some_stays (thr : ℚ) (dbox : Box) (used : List Nat) :
    ∀ (l : AList Box) (t0 : Nat) (c : ℚ),
      ∃ t, (findBest thr dbox used l (some t0, c)).1 = some t := by
  intro l
  induction l with
  | nil => intro t0 c; exact ⟨t0, rfl⟩
  | cons p rest ih =>
    intro t0 c
    rw [findBest]
    split
    · exact ih t0 c
    · split
      · exact ih p.1 (iou dbox p.2)
      · exact ih t0 c

theorem findBest_some (thr : ℚ) (dbox : Box) (used : List Nat) :
    ∀ (l : AList Box) (acc : Option Nat × ℚ) (t : Nat),
      (findBest thr dbox used l acc).1 = some t →
      (∃ bx, (t, bx) ∈ l ∧ t ∉ used ∧
        iou dbox bx = (findBest thr dbox used l acc).2 ∧
        thr < iou dbox bx) ∨
      findBest thr dbox used l acc = acc := by
  intro l
  induction l with
  | nil => intro acc t _; exact Or.inr rfl
  | cons p rest ih =>
    intro acc t h
    by_cases hpu : p.1 ∈ used
    · rw [findBest, if_pos hpu] at h
      rcases ih acc t h with hL | hR
      · rcases hL with ⟨bx, hmem, hnu, heq, hthr⟩
        refine Or.inl ⟨bx, List.mem_cons_of_mem _ hmem, hnu, ?_, hthr⟩
        rw [findBest, if_pos hpu]
        exact heq
      · rw [findBest, if_pos hpu]
        exact Or.inr hR
    · by_cases hgt : thr < iou dbox p.2 ∧ acc.2 < iou dbox p.2
      · rw [findBest, if_neg hpu, if_pos hgt] at h
        rcases ih (some p.1, iou dbox p.2) t h with hL | hR
        · rcases hL with ⟨bx, hmem, hnu, heq, hthr⟩
          refine Or.inl ⟨bx, List.mem_cons_of_mem _ hmem, hnu, ?_, hthr⟩
          rw [findBest, if_neg hpu, if_pos hgt]
          exact heq
        · have ht : t = p.1 := by
            have h2 := congrArg Prod.fst hR
            rw [h] at h2
            exact Option.some_inj.1 h2
          subst ht
          refine Or.inl ⟨p.2, List.mem_cons_self _ _, hpu, ?_, hgt.1⟩
          rw [findBest, if_neg hpu, if_pos hgt, hR]
      · rw [findBest, if_neg hpu, if_neg hgt] at h
        rcases ih acc t h with hL | hR
        · rcases hL with ⟨bx, hmem, hnu, heq, hthr⟩
          refine Or.inl ⟨bx, List.mem_cons_of_mem _ hmem, hnu, ?_, hthr⟩
          rw [findBest, if_neg hpu, if_neg hgt]
          exact heq
        · rw [findBest, if_neg hpu, if_neg hgt]
          exact Or.inr hR

theorem findBest_none (thr : ℚ) (dbox : Box) (used : List Nat) :
    ∀ (l : AList Box) (c : ℚ),
      (findBest thr dbox used l (none, c)).1 = none →
      ∀ t' b', (t', b') ∈ l → t' ∉ used →
        (iou dbox b' ≤ thr ∨ iou dbox b' ≤ c) := by
  intro l
  induction l with
  | nil => intro c _ t' b' hm; simp at hm
  | cons p rest ih =>
    intro c h t' b' hm hu
    rw [findBest] at h
    split at h
    · rcases List.mem_cons.1 hm with hm | hm
      · subst hm
        exact absurd (by assumption) hu
      · exact ih c h t' b' hm hu
    · split at h
      · obtain ⟨t, ht⟩ := findBest_some_stays thr dbox used rest p.1 (iou dbox p.2)
        rw [ht] at h
        exact Option.noConfusion h
      · rename_i hpu hgt
        push_neg at hgt
        rcases List.mem_cons.1 hm with hm | hm
        · cases hm
          rcases le_or_lt (iou dbox b') thr with hle | hlt
          · exact Or.inl hle
          · exact Or.inr (hgt hlt)
        · exact ih c h t' b' hm hu

/-- One iteration of the detection loop of `assign_ids`: match or mint,
compute the velocity from the previous stored position and frame, store
box/position/frame and reset the age to `0`, and claim the id. -/
def processDet (st : TrackerState) (used : List Nat) (det : Det)
    (frame : Nat) : (Nat × TrackedDet) × TrackerState × List Nat :=
  let matched := (findBest st.iou_threshold det.bbox used st.boxes_2d (none, 0)).1
  let mid := match matched with
    | some t => t
    | none => st.next_id
  let st1 := match matched with
    | some _ => st
    | none => { st with next_id := st.next_id + 1 }
  let prev_pos := alookup st1.positions_3d mid
  let prev_time := (alookup st1.timestamps mid).getD frame
  let dt : Nat := max (frame - prev_time) 1
  let velocity : Vec3 := match prev_pos with
    | some p => if 0 < dt then (det.pos3d.sub p).divq (dt : ℚ) else Vec3.zero
    | none => Vec3.zero
  let st2 := { st1 with
    boxes_2d := aset st1.boxes_2d mid det.bbox
    positions_3d := aset st1.positions_3d mid det.pos3d
    timestamps := aset st1.timestamps mid frame
    ages := aset st1.ages mid 0 }
  ((mid, ⟨det.bbox, det.cls, det.pos3d, velocity⟩), st2, mid :: used)

/-- The detection loop of `assign_ids`, processing detections in input
order and threading the tracker state and the claimed-id set. -/
def assignLoop (frame : Nat) :
    TrackerState → List Nat → List Det →
      List (Nat × TrackedDet) × TrackerState × List Nat
  | st, used, [] => ([], st, used)
  | st, used, det :: rest =>
    let r := processDet st used det frame
    let r' := assignLoop frame r.2.1 r.2.2 rest
    (r.1 :: r'.1, r'.2.1, r'.2.2)

/-- The age-increment loop of `assign_ids`: every id not claimed this
frame has its age incremented in place. -/
def bumpAges (ages : AList Nat) (used : List Nat) : AList Nat :=
  ages.map (fun p => if p.1 ∈ used then p else (p.1, p.2 + 1))

/-- `active_ids`: the ids whose age is `<= max_age`, in dict order. -/
def activeIds (ages : AList Nat) (maxAge : Nat) : List Nat :=
  (ages.filter (fun p => p.2 ≤ maxAge)).map Prod.fst

/-- The dict comprehensions rebuilding each per-id dictionary over
`active_ids` (`{oid: d[oid] for oid in active_ids if oid in d}`). -/
def rebuild {α : Type} (l : AList α) (active : List Nat) : AList α :=
  active.filterMap (fun oid => (alookup l oid).map (fun v => (oid, v)))

/-- The aging and purge phase ending `assign_ids`. -/
def purge (st : TrackerState) (used : List Nat) : TrackerState :=
  let ages1 := bumpAges st.ages used
  let active := activeIds ages1 st.max_age
  { st with
    boxes_2d := rebuild st.boxes_2d active
    positions_3d := rebuild st.positions_3d active
    timestamps := rebuild st.timestamps active
    ages := rebuild ages1 active }

/-- `SimpleTracker.assign_ids`: greedy IoU matching over the detections
in input order, then aging and purge of unclaimed tracks. -/
def assign_ids (st : TrackerState) (detections : List Det)
    (current_frame : Nat) : List (Nat × TrackedDet) × TrackerState :=
  let r := assignLoop current_frame st [] detections
  (r.1, purge r.2.1 r.2.2)

/-- Well-formedness of a tracker state: all stored ids are below the id
counter (so fresh ids are really fresh) and each dictionary has
duplicate-free keys (true of Python dicts by construction). -/
structure TrackerInv (st : TrackerState) : Prop where
  fresh_b : ∀ k ∈ keys st.boxes_2d, k < st.next_id
  fresh_p : ∀ k ∈ keys st.positions_3d, k < st.next_id
  fresh_t : ∀ k ∈ keys st.timestamps, k < st.next_id
  fresh_a : ∀ k ∈ keys st.ages, k < st.next_id
  nd_b : (keys st.boxes_2d).Nodup
  nd_p : (keys st.positions_3d).Nodup
  nd_t : (keys st.timestamps).Nodup
  nd_a : (keys st.ages).Nodup

/-- Every tracked box id also has a stored position and last-seen frame
(the four dictionaries are updated in lockstep by `assign_ids`). -/
def Covers (st : TrackerState) : Prop :=
  ∀ k ∈ keys st.boxes_2d, k ∈ keys st.positions_3d ∧ k ∈ keys st.timestamps

/-- C1's specification, written from the claim: detections are processed
in input order; with `used` the ids already claimed this frame, each
detection is matched to a still-unclaimed existing track of maximal IoU
strictly above the threshold — recording the new box and position and a
velocity of `(newPosition - oldPosition) / max(1, frame - lastFrameSeen)`
— or receives a freshly minted, never-before-used id with zero
velocity. -/
inductive AssignSpec (frame : Nat) (st : TrackerState) :
    List Nat → List Det → List (Nat × TrackedDet) → Prop where
  | nil (used : List Nat) : AssignSpec frame st used [] []
  | matched (used : List Nat) (d : Det) (rest : List Det)
      (out : List (Nat × TrackedDet)) (t : Nat) (b : Box) (p : Vec3)
      (ts : Nat) :
      alookup st.boxes_2d t = some b →
      t ∉ used →
      st.iou_threshold < iou d.bbox b →
      (∀ t' b', alookup st.boxes_2d t' = some b' → t' ∉ used →
        iou d.bbox b' ≤ iou d.bbox b) →
      alookup st.positions_3d t = some p →
      alookup st.timestamps t = some ts →
      AssignSpec frame st (t :: used) rest out →
      AssignSpec frame st used (d :: rest)
        ((t, ⟨d.bbox, d.cls, d.pos3d,
          (d.pos3d.sub p).divq ((max (frame - ts) 1 : Nat) : ℚ)⟩) :: out)
  | minted (used : List Nat) (d : Det) (rest : List Det)
      (out : List (Nat × TrackedDet)) (i : Nat) :
      (∀ t' b', alookup st.boxes_2d t' = some b' → t' ∉ used →
        iou d.bbox b' ≤ st.iou_threshold) →
      i ∉ keys st.boxes_2d → i ∉ keys st.positions_3d →
      i ∉ keys st.timestamps → i ∉ keys st.ages →
      i ∉ used →
      AssignSpec frame st (i :: used) rest out →
      AssignSpec frame st used (d :: rest)
        ((i, ⟨d.bbox, d.cls, d.pos3d, Vec3.zero⟩) :: out)

/-- Relation between the evolving loop state and the state at call
entry: thresholds and `max_age` are never written; the id counter only
grows; claimed ids and all stored ids stay below the counter; keys stay
duplicate-free; and every dictionary is unchanged at unclaimed ids. -/
structure LoopInv (st0 st : TrackerState) (used : List Nat) : Prop where
  thr : st.iou_threshold = st0.iou_threshold
  mage : st.max_age = st0.max_age
  nid : st0.next_id ≤ st.next_id
  used_lt : ∀ u ∈ used, u < st.next_id
  fresh_b : ∀ k ∈ keys st.boxes_2d, k < st.next_id
  fresh_p : ∀ k ∈ keys st.positions_3d, k < st.next_id
  fresh_t : ∀ k ∈ keys st.timestamps, k < st.next_id
  fresh_a : ∀ k ∈ keys st.ages, k < st.next_id
  nd_b : (keys st.boxes_2d).Nodup
  nd_p : (keys st.positions_3d).Nodup
  nd_t : (keys st.timestamps).Nodup
  nd_a : (keys st.ages).Nodup
  lookb : ∀ t, t ∉ used → alookup st.boxes_2d t = alookup st0.boxes_2d t
  lookp : ∀ t, t ∉ used →
    alookup st.positions_3d t = alookup st0.positions_3d t
  lookt : ∀ t, t ∉ used → alookup st.timestamps t = alookup st0.timestamps t
  looka : ∀ t, t ∉ used → alookup st.ages t = alookup st0.ages t

theorem loopInv_init (st0 : TrackerState) (hinv : TrackerInv st0) :
    LoopInv st0 st0 [] :=
  ⟨rfl, rfl, le_refl _, by simp, hinv.fresh_b, hinv.fresh_p, hinv.fresh_t,
    hinv.fresh_a, hinv.nd_b, hinv.nd_p, hinv.nd_t, hinv.nd_a,
    fun _ _ => rfl, fun _ _ => rfl, fun _ _ => rfl, fun _ _ => rfl⟩

theorem mem_keys_aset {α : Type} {l : AList α} {k m : Nat} (v : α)
    (h : k ∈ keys (aset l m v)) : k ∈ keys l ∨ k = m := by
  by_cases hm : m ∈ keys l
  · rw [keys_aset_of_mem v hm] at h
    exact Or.inl h
  · rw [keys_aset_of_not_mem v hm] at h
    rcases List.mem_append.1 h with h | h
    · exact Or.inl h
    · exact Or.inr (by simpa using h)

theorem processDet_eq_matched (st : TrackerState) (used : List Nat)
    (d : Det) (frame : Nat) (t : Nat) (p : Vec3) (ts : Nat)
    (hm : (findBest st.iou_threshold d.bbox used st.boxes_2d
      (none, 0)).1 = some t)
    (hp : alookup st.positions_3d t = some p)
    (hts : alookup st.timestamps t = some ts) :
    processDet st used d frame =
      ((t, ⟨d.bbox, d.cls, d.pos3d,
        (d.pos3d.sub p).divq ((max (frame - ts) 1 : Nat) : ℚ)⟩),
       { st with
         boxes_2d := aset st.boxes_2d t d.bbox
         positions_3d := aset st.positions_3d t d.pos3d
         timestamps := aset st.timestamps t frame
         ages := aset st.ages t 0 },
       t :: used) := by
  have hdt : 0 < max (frame - ts) 1 :=
    lt_of_lt_of_le Nat.one_pos (Nat.le_max_right _ 1)
  simp [processDet, hm, hp, hts, hdt]

theorem processDet_eq_minted (st : TrackerState) (used : List Nat)
    (d : Det) (frame : Nat)
    (hm : (findBest st.iou_threshold d.bbox used st.boxes_2d
      (none, 0)).1 = none)
    (hp : alookup st.positions_3d st.next_id = none) :
    processDet st used d frame =
      ((st.next_id, ⟨d.bbox, d.cls, d.pos3d, Vec3.zero⟩),
       { st with
         next_id := st.next_id + 1
         boxes_2d := aset st.boxes_2d st.next_id d.bbox
         positions_3d := aset st.positions_3d st.next_id d.pos3d
         timestamps := aset st.timestamps st.next_id frame
         ages := aset st.ages st.next_id 0 },
       st.next_id :: used) := by
  simp [processDet, hm, hp]

theorem processDet_spec (frame : Nat) (st0 : TrackerState)
    (hinv0 : TrackerInv st0) (hcov : Covers st0)
    (hthr0 : 0 ≤ st0.iou_threshold)
    (st : TrackerState) (used : List Nat) (d : Det)
    (hI : LoopInv st0 st used) :
    (processDet st used d frame).2.2 =
      (processDet st used d frame).1.1 :: used ∧
    (processDet st used d frame).1.1 ∉ used ∧
    LoopInv st0 (processDet st used d frame).2.1
      ((processDet st used d frame).1.1 :: used) ∧
    alookup (processDet st used d frame).2.1.boxes_2d
      (processDet st used d frame).1.1 =
      some (processDet st used d frame).1.2.bbox ∧
    alookup (processDet st used d frame).2.1.positions_3d
      (processDet st used d frame).1.1 =
      some (processDet st used d frame).1.2.pos3d ∧
    alookup (processDet st used d frame).2.1.timestamps
      (processDet st used d frame).1.1 = some frame ∧
    alookup (processDet st used d frame).2.1.ages
      (processDet st used d frame).1.1 = some 0 ∧
    (∀ u, u ≠ (processDet st used d frame).1.1 →
      alookup (processDet st used d frame).2.1.boxes_2d u =
        alookup st.boxes_2d u ∧
      alookup (processDet st used d frame).2.1.positions_3d u =
        alookup st.positions_3d u ∧
      alookup (processDet st used d frame).2.1.timestamps u =
        alookup st.timestamps u ∧
      alookup (processDet st used d frame).2.1.ages u =
        alookup st.ages u) ∧
    (∀ rest out,
      AssignSpec frame st0 ((processDet st used d frame).1.1 :: used)
        rest out →
      AssignSpec frame st0 used (d :: rest)
        ((processDet st used d frame).1 :: out)) := by
  cases hm : (findBest st.iou_threshold d.bbox used st.boxes_2d
      (none, 0)).1 with
  | some t =>
    rcases findBest_some st.iou_threshold d.bbox used st.boxes_2d
        (none, 0) t hm with ⟨bx, hmem, hnu, hioueq, hthr⟩ | hacc
    case inr =>
      rw [hacc] at hm
      exact Option.noConfusion hm
    have hbst : alookup st.boxes_2d t = some bx := mem_alookup hI.nd_b hmem
    have hbst0 : alookup st0.boxes_2d t = some bx :=
      (hI.lookb t hnu).symm.trans hbst
    have ht0 : t ∈ keys st0.boxes_2d := mem_keys_iff_alookup.2 ⟨bx, hbst0⟩
    obtain ⟨hpk, htk⟩ := hcov t ht0
    obtain ⟨p, hp0⟩ := mem_keys_iff_alookup.1 hpk
    obtain ⟨ts, hts0⟩ := mem_keys_iff_alookup.1 htk
    have hp : alookup st.positions_3d t = some p :=
      (hI.lookp t hnu).trans hp0
    have hts : alookup st.timestamps t = some ts :=
      (hI.lookt t hnu).trans hts0
    have htlt : t < st.next_id := hI.fresh_b t (mem_keys_of_mem hmem)
    have hmax : ∀ t' b', alookup st0.boxes_2d t' = some b' → t' ∉ used →
        iou d.bbox b' ≤ iou d.bbox bx := by
      intro t' b' hb' hu'
      have hbst' : alookup st.boxes_2d t' = some b' :=
        (hI.lookb t' hu').trans hb'
      have hmem' : (t', b') ∈ st.boxes_2d := alookup_mem hbst'
      rcases le_or_lt (iou d.bbox b') st.iou_threshold with hle | hlt
      · exact le_trans hle (le_of_lt hthr)
      · have hb := findBest_bound st.iou_threshold d.bbox used
          st.boxes_2d (none, 0) t' b' hmem' hu' hlt
        rw [← hioueq] at hb
        exact hb
    rw [processDet_eq_matched st used d frame t p ts hm hp hts]
    refine ⟨rfl, hnu, ?_, alookup_aset_self _ _ _, alookup_aset_self _ _ _,
      alookup_aset_self _ _ _, alookup_aset_self _ _ _, ?_, ?_⟩
    · refine ⟨hI.thr, hI.mage, hI.nid, ?_, ?_, ?_, ?_, ?_,
        nodup_keys_aset _ _ hI.nd_b, nodup_keys_aset _ _ hI.nd_p,
        nodup_keys_aset _ _ hI.nd_t, nodup_keys_aset _ _ hI.nd_a,
        ?_, ?_, ?_, ?_⟩
      · intro u hu
        rcases List.mem_cons.1 hu with hu | hu
        · exact hu ▸ htlt
        · exact hI.used_lt u hu
      · intro k hk
        rcases mem_keys_aset _ hk with hk | hk
        · exact hI.fresh_b k hk
        · exact hk ▸ htlt
      · intro k hk
        rcases mem_keys_aset _ hk with hk | hk
        · exact hI.fresh_p k hk
        · exact hk ▸ htlt
      · intro k hk
        rcases mem_keys_aset _ hk with hk | hk
        · exact hI.fresh_t k hk
        · exact hk ▸ htlt
      · intro k hk
        rcases mem_keys_aset _ hk with hk | hk
        · exact hI.fresh_a k hk
        · exact hk ▸ htlt
      · intro t' ht'
        have h1 : t' ≠ t := fun he => ht' (he ▸ List.mem_cons_self _ _)
        have h2 : t' ∉ used := fun hu => ht' (List.mem_cons_of_mem _ hu)
        exact (alookup_aset_ne _ _ h1).trans (hI.lookb t' h2)
      · intro t' ht'
        have h1 : t' ≠ t := fun he => ht' (he ▸ List.mem_cons_self _ _)
        have h2 : t' ∉ used := fun hu => ht' (List.mem_cons_of_mem _ hu)
        exact (alookup_aset_ne _ _ h1).trans (hI.lookp t' h2)
      · intro t' ht'
        have h1 : t' ≠ t := fun he => ht' (he ▸ List.mem_cons_self _ _)
        have h2 : t' ∉ used := fun hu => ht' (List.mem_cons_of_mem _ hu)
        exact (alookup_aset_ne _ _ h1).trans (hI.lookt t' h2)
      · intro t' ht'
        have h1 : t' ≠ t := fun he => ht' (he ▸ List.mem_cons_self _ _)
        have h2 : t' ∉ used := fun hu => ht' (List.mem_cons_of_mem _ hu)
        exact (alookup_aset_ne _ _ h1).trans (hI.looka t' h2)
    · intro u hu
      exact ⟨alookup_aset_ne _ _ hu, alookup_aset_ne _ _ hu,
        alookup_aset_ne _ _ hu, alookup_aset_ne _ _ hu⟩
    · intro rest out hs
      exact AssignSpec.matched used d rest out t bx p ts hbst0 hnu
        (hI.thr ▸ hthr) hmax hp0 hts0 hs
  | none =>
    have hnone := findBest_none st.iou_threshold d.bbox used
      st.boxes_2d 0 hm
    have hfp : alookup st.positions_3d st.next_id = none :=
      alookup_eq_none.2 (fun hk => lt_irrefl _ (hI.fresh_p _ hk))
    have hnu : st.next_id ∉ used :=
      fun hu => lt_irrefl _ (hI.used_lt _ hu)
    rw [processDet_eq_minted st used d frame hm hfp]
    refine ⟨rfl, hnu, ?_, alookup_aset_self _ _ _, alookup_aset_self _ _ _,
      alookup_aset_self _ _ _, alookup_aset_self _ _ _, ?_, ?_⟩
    · refine ⟨hI.thr, hI.mage, le_trans hI.nid (Nat.le_succ _),
        ?_, ?_, ?_, ?_, ?_,
        nodup_keys_aset _ _ hI.nd_b, nodup_keys_aset _ _ hI.nd_p,
        nodup_keys_aset _ _ hI.nd_t, nodup_keys_aset _ _ hI.nd_a,
        ?_, ?_, ?_, ?_⟩
      · intro u hu
        rcases List.mem_cons.1 hu with hu | hu
        · exact hu ▸ Nat.lt_succ_self _
        · exact lt_trans (hI.used_lt u hu) (Nat.lt_succ_self _)
      · intro k hk
        rcases mem_keys_aset _ hk with hk | hk
        · exact lt_trans (hI.fresh_b k hk) (Nat.lt_succ_self _)
        · exact hk ▸ Nat.lt_succ_self _
      · intro k hk
        rcases mem_keys_aset _ hk with hk | hk
        · exact lt_trans (hI.fresh_p k hk) (Nat.lt_succ_self _)
        · exact hk ▸ Nat.lt_succ_self _
      · intro k hk
        rcases mem_keys_aset _ hk with hk | hk
        · exact lt_trans (hI.fresh_t k hk) (Nat.lt_succ_self _)
        · exact hk ▸ Nat.lt_succ_self _
      · intro k hk
        rcases mem_keys_aset _ hk with hk | hk
        · exact lt_trans (hI.fresh_a k hk) (Nat.lt_succ_self _)
        · exact hk ▸ Nat.lt_succ_self _
      · intro t' ht'
        have h1 : t' ≠ st.next_id :=
          fun he => ht' (he ▸ List.mem_cons_self _ _)
        have h2 : t' ∉ used := fun hu => ht' (List.mem_cons_of_mem _ hu)
        exact (alookup_aset_ne _ _ h1).trans (hI.lookb t' h2)
      · intro t' ht'
        have h1 : t' ≠ st.next_id :=
          fun he => ht' (he ▸ List.mem_cons_self _ _)
        have h2 : t' ∉ used := fun hu => ht' (List.mem_cons_of_mem _ hu)
        exact (alookup_aset_ne _ _ h1).trans (hI.lookp t' h2)
      · intro t' ht'
        have h1 : t' ≠ st.next_id :=
          fun he => ht' (he ▸ List.mem_cons_self _ _)
        have h2 : t' ∉ used := fun hu => ht' (List.mem_cons_of_mem _ hu)
        exact (alookup_aset_ne _ _ h1).trans (hI.lookt t' h2)
      · intro t' ht'
        have h1 : t' ≠ st.next_id :=
          fun he => ht' (he ▸ List.mem_cons_self _ _)
        have h2 : t' ∉ used := fun hu => ht' (List.mem_cons_of_mem _ hu)
        exact (alookup_aset_ne _ _ h1).trans (hI.looka t' h2)
    · intro u hu
      exact ⟨alookup_aset_ne _ _ hu, alookup_aset_ne _ _ hu,
        alookup_aset_ne _ _ hu, alookup_aset_ne _ _ hu⟩
    · intro rest out hs
      refine AssignSpec.minted used d rest out st.next_id ?_ ?_ ?_ ?_ ?_
        hnu hs
      · intro t' b' hb' hu'
        have hbst' : alookup st.boxes_2d t' = some b' :=
          (hI.lookb t' hu').trans hb'
        have hmem' : (t', b') ∈ st.boxes_2d := alookup_mem hbst'
        rcases hnone t' b' hmem' hu' with h | h
        · exact hI.thr ▸ h
        · exact le_trans h hthr0
      · exact fun hk =>
          lt_irrefl _ (lt_of_lt_of_le (hinv0.fresh_b _ hk) hI.nid)
      · exact fun hk =>
          lt_irrefl _ (lt_of_lt_of_le (hinv0.fresh_p _ hk) hI.nid)
      · exact fun hk =>
          lt_irrefl _ (lt_of_lt_of_le (hinv0.fresh_t _ hk) hI.nid)
      · exact fun hk =>
          lt_irrefl _ (lt_of_lt_of_le (hinv0.fresh_a _ hk) hI.nid)

theorem alookup_bumpAges_mem (ages : AList Nat) (used : List Nat)
    (k : Nat) (hk : k ∈ used) :
    alookup (bumpAges ages used) k = alookup ages k := by
  induction ages with
  | nil => rfl
  | cons p rest ih =>
    have h1 : (if p.1 ∈ used then p else (p.1, p.2 + 1)).1 = p.1 := by
      split <;> rfl
    simp only [bumpAges, List.map_cons, alookup, h1]
    by_cases hp : p.1 = k
    · subst hp
      simp [hk]
    · simp only [if_neg hp]
      exact ih

theorem alookup_bumpAges_not_mem (ages : AList Nat) (used : List Nat)
    (k : Nat) (hk : k ∉ used) :
    alookup (bumpAges ages used) k =
      (alookup ages k).map (fun a => a + 1) := by
  induction ages with
  | nil => rfl
  | cons p rest ih =>
    have h1 : (if p.1 ∈ used then p else (p.1, p.2 + 1)).1 = p.1 := by
      split <;> rfl
    simp only [bumpAges, List.map_cons, alookup, h1]
    by_cases hp : p.1 = k
    · subst hp
      simp [hk]
    · simp only [if_neg hp]
      exact ih

theorem keys_bumpAges (ages : AList Nat) (used : List Nat) :
    keys (bumpAges ages used) = keys ages := by
  induction ages with
  | nil => rfl
  | cons p rest ih =>
    have h1 : (if p.1 ∈ used then p else (p.1, p.2 + 1)).1 = p.1 := by
      split <;> rfl
    simp only [bumpAges, List.map_cons, keys_cons, h1] at *
    rw [ih]

theorem alookup_rebuild {α : Type} (l : AList α) (active : List Nat)
    (k : Nat) :
    alookup (rebuild l active) k =
      if k ∈ active then alookup l k else none := by
  induction active with
  | nil => simp [rebuild, alookup]
  | cons x xs ih =>
    have hstep : rebuild l (x :: xs) =
        match alookup l x with
        | none => rebuild l xs
        | some v => (x, v) :: rebuild l xs := by
      simp only [rebuild, List.filterMap_cons]
      cases alookup l x <;> rfl
    rw [hstep]
    cases hx : alookup l x with
    | none =>
      rw [ih]
      by_cases hk : k = x
      · subst hk
        by_cases h2 : k ∈ xs
        · simp [h2]
        · simp [h2, hx]
      · simp [List.mem_cons, hk]
    | some v =>
      by_cases hxk : x = k
      · subst hxk
        simp [alookup, hx]
      · have hk : ¬ k = x := fun he => hxk he.symm
        simp [alookup, hxk, ih, List.mem_cons, hk]

theorem mem_activeIds (ages : AList Nat) (maxAge : Nat) (k : Nat)
    (hnd : (keys ages).Nodup) :
    k ∈ activeIds ages maxAge ↔
      ∃ a, alookup ages k = some a ∧ a ≤ maxAge := by
  constructor
  · intro h
    obtain ⟨p, hp, he⟩ := List.mem_map.1 h
    obtain ⟨hmem, hle⟩ := List.mem_filter.1 hp
    subst he
    exact ⟨p.2, mem_alookup hnd hmem, by simpa using hle⟩
  · rintro ⟨a, ha, hle⟩
    exact List.mem_map.2 ⟨(k, a),
      List.mem_filter.2 ⟨alookup_mem ha, by simpa⟩, rfl⟩

theorem assignLoop_spec (frame : Nat) (st0 : TrackerState)
    (hinv0 : TrackerInv st0) (hcov : Covers st0)
    (hthr0 : 0 ≤ st0.iou_threshold) :
    ∀ (dets : List Det) (st : TrackerState) (used : List Nat),
      LoopInv st0 st used →
      AssignSpec frame st0 used dets (assignLoop frame st used dets).1 ∧
      LoopInv st0 (assignLoop frame st used dets).2.1
        (assignLoop frame st used dets).2.2 ∧
      (∀ u, u ∈ (assignLoop frame st used dets).2.2 ↔
        u ∈ (assignLoop frame st used dets).1.map Prod.fst ∨ u ∈ used) ∧
      (∀ u ∈ used,
        alookup (assignLoop frame st used dets).2.1.boxes_2d u =
          alookup st.boxes_2d u ∧
        alookup (assignLoop frame st used dets).2.1.positions_3d u =
          alookup st.positions_3d u ∧
        alookup (assignLoop frame st used dets).2.1.timestamps u =
          alookup st.timestamps u ∧
        alookup (assignLoop frame st used dets).2.1.ages u =
          alookup st.ages u) ∧
      (∀ pr ∈ (assignLoop frame st used dets).1,
        alookup (assignLoop frame st used dets).2.1.boxes_2d pr.1 =
          some pr.2.bbox ∧
        alookup (assignLoop frame st used dets).2.1.positions_3d pr.1 =
          some pr.2.pos3d ∧
        alookup (assignLoop frame st used dets).2.1.timestamps pr.1 =
          some frame ∧
        alookup (assignLoop frame st used dets).2.1.ages pr.1 =
          some 0) := by
  intro dets
  induction dets with
  | nil =>
    intro st used hI
    refine ⟨AssignSpec.nil used, hI, by simp [assignLoop], ?_, by
      simp [assignLoop]⟩
    intro u _
    exact ⟨rfl, rfl, rfl, rfl⟩
  | cons d rest ih =>
    intro st used hI
    obtain ⟨hU, hNU, hLI, hB, hP, hT, hA, hOther, hStep⟩ :=
      processDet_spec frame st0 hinv0 hcov hthr0 st used d hI
    have hLI' : LoopInv st0 (processDet st used d frame).2.1
        (processDet st used d frame).2.2 := hU ▸ hLI
    obtain ⟨ihS, ihLI, ihMem, ihStable, ihOut⟩ :=
      ih (processDet st used d frame).2.1 (processDet st used d frame).2.2
        hLI'
    have hmid_mem : (processDet st used d frame).1.1 ∈
        (processDet st used d frame).2.2 := by
      rw [hU]
      exact List.mem_cons_self _ _
    have hmidStable := ihStable _ hmid_mem
    constructor
    · show AssignSpec frame st0 used (d :: rest)
        ((processDet st used d frame).1 ::
          (assignLoop frame (processDet st used d frame).2.1
            (processDet st used d frame).2.2 rest).1)
      apply hStep
      rw [← hU]
      exact ihS
    refine ⟨ihLI, ?_, ?_, ?_⟩
    · intro u
      show u ∈ (assignLoop frame (processDet st used d frame).2.1
          (processDet st used d frame).2.2 rest).2.2 ↔
        u ∈ List.map Prod.fst ((processDet st used d frame).1 ::
          (assignLoop frame (processDet st used d frame).2.1
            (processDet st used d frame).2.2 rest).1) ∨ u ∈ used
      rw [ihMem u, hU]
      simp only [List.map_cons, List.mem_cons]
      tauto
    · intro u hu
      have hu' : u ∈ (processDet st used d frame).2.2 := by
        rw [hU]
        exact List.mem_cons_of_mem _ hu
      have hne : u ≠ (processDet st used d frame).1.1 :=
        fun he => hNU (he ▸ hu)
      obtain ⟨o1, o2, o3, o4⟩ := hOther u hne
      obtain ⟨s1, s2, s3, s4⟩ := ihStable u hu'
      exact ⟨s1.trans o1, s2.trans o2, s3.trans o3, s4.trans o4⟩
    · intro pr hpr
      rcases List.mem_cons.1 hpr with hpr | hpr
      · subst hpr
        obtain ⟨s1, s2, s3, s4⟩ := hmidStable
        exact ⟨s1.trans hB, s2.trans hP, s3.trans hT, s4.trans hA⟩
      · exact ihOut pr hpr

theorem assign_ids_fst (st : TrackerState) (dets : List Det) (frame : Nat) :
    (assign_ids st dets frame).1 = (assignLoop frame st [] dets).1 := rfl

theorem assign_ids_snd (st : TrackerState) (dets : List Det) (frame : Nat) :
    (assign_ids st dets frame).2 =
      purge (assignLoop frame st [] dets).2.1
        (assignLoop frame st [] dets).2.2 := rfl

theorem purge_boxes (st : TrackerState) (used : List Nat) :
    (purge st used).boxes_2d =
      rebuild st.boxes_2d (activeIds (bumpAges st.ages used) st.max_age) :=
  rfl

theorem purge_positions (st : TrackerState) (used : List Nat) :
    (purge st used).positions_3d =
      rebuild st.positions_3d
        (activeIds (bumpAges st.ages used) st.max_age) := rfl

theorem purge_timestamps (st : TrackerState) (used : List Nat) :
    (purge st used).timestamps =
      rebuild st.timestamps
        (activeIds (bumpAges st.ages used) st.max_age) := rfl

theorem purge_ages (st : TrackerState) (used : List Nat) :
    (purge st used).ages =
      rebuild (bumpAges st.ages used)
        (activeIds (bumpAges st.ages used) st.max_age) := rfl

/-- C1: `assign_ids` processes detections in input order, matching each
to the still-unclaimed existing track of maximal IoU strictly above the
0.3 threshold or minting a fresh never-before-used id (per `AssignSpec`,
which also fixes the velocity to
`(newPosition - oldPosition) / max(1, frame - lastFrameSeen)` for matches
and to zero for new tracks); and every claimed track leaves the call with
its stored box and position updated, its last-seen frame set to `frame`
and its age reset to `0`. -/
theorem assign_ids_greedy (st : TrackerState) (dets : List Det)
    (frame : Nat) (hinv : TrackerInv st) (hcov : Covers st)
    (hthr : st.iou_threshold = 3 / 10) :
    AssignSpec frame st [] dets (assign_ids st dets frame).1 ∧
    (∀ pr ∈ (assign_ids st dets frame).1,
      alookup (assign_ids st dets frame).2.boxes_2d pr.1 =
        some pr.2.bbox ∧
      alookup (assign_ids st dets frame).2.positions_3d pr.1 =
        some pr.2.pos3d ∧
      alookup (assign_ids st dets frame).2.timestamps pr.1 =
        some frame ∧
      alookup (assign_ids st dets frame).2.ages pr.1 = some 0) := by
  have hthr0 : 0 ≤ st.iou_threshold := by
    rw [hthr]
    norm_num
  obtain ⟨hS, hLI, hMem, hStable, hOut⟩ :=
    assignLoop_spec frame st hinv hcov hthr0 dets st [] (loopInv_init st hinv)
  refine ⟨hS, ?_⟩
  intro pr hpr
  rw [assign_ids_fst] at hpr
  obtain ⟨b1, b2, b3, b4⟩ := hOut pr hpr
  have hmidU : pr.1 ∈ (assignLoop frame st [] dets).2.2 :=
    (hMem pr.1).2 (Or.inl (List.mem_map.2 ⟨pr, hpr, rfl⟩))
  have hages1 : alookup
      (bumpAges (assignLoop frame st [] dets).2.1.ages
        (assignLoop frame st [] dets).2.2) pr.1 = some 0 :=
    (alookup_bumpAges_mem _ _ _ hmidU).trans b4
  have hnd1 : (keys (bumpAges (assignLoop frame st [] dets).2.1.ages
      (assignLoop frame st [] dets).2.2)).Nodup := by
    rw [keys_bumpAges]
    exact hLI.nd_a
  have hact : pr.1 ∈ activeIds
      (bumpAges (assignLoop frame st [] dets).2.1.ages
        (assignLoop frame st [] dets).2.2)
      (assignLoop frame st [] dets).2.1.max_age :=
    (mem_activeIds _ _ _ hnd1).2 ⟨0, hages1, Nat.zero_le _⟩
  rw [assign_ids_snd, purge_boxes, purge_positions, purge_timestamps,
    purge_ages, alookup_rebuild, alookup_rebuild, alookup_rebuild,
    alookup_rebuild, if_pos hact, if_pos hact, if_pos hact, if_pos hact]
  exact ⟨b1, b2, b3, hages1⟩

/-- Witness for C1: starting from the empty default tracker
(`iou_threshold = 0.3`, `max_age = 30`), a single detection in frame 1 is
processed according to the claim-side matching specification. -/
theorem assign_ids_greedy_witness :
    AssignSpec 1 ⟨0, [], [], [], [], 3 / 10, 30⟩ []
      [⟨⟨0, 0, 10, 10⟩, "person", ⟨0, 0, 1⟩⟩]
      (assign_ids ⟨0, [], [], [], [], 3 / 10, 30⟩
        [⟨⟨0, 0, 10, 10⟩, "person", ⟨0, 0, 1⟩⟩] 1).1 := by
  have hinv : TrackerInv ⟨0, [], [], [], [], 3 / 10, 30⟩ :=
    ⟨by simp [keys], by simp [keys], by simp [keys], by simp [keys],
      List.nodup_nil, List.nodup_nil, List.nodup_nil, List.nodup_nil⟩
  have hcov : Covers ⟨0, [], [], [], [], 3 / 10, 30⟩ := by
    intro k hk
    simp [keys] at hk
  exact (assign_ids_greedy ⟨0, [], [], [], [], 3 / 10, 30⟩
    [⟨⟨0, 0, 10, 10⟩, "person", ⟨0, 0, 1⟩⟩] 1 hinv hcov rfl).1

/-- C3: in every `assign_ids` call, an existing track that is not claimed
this frame has its age incremented by exactly one (kept if the new age is
`<= max_age`, and purged from all four dictionaries if the new age
exceeds `max_age` — in particular any track already at `age >= max_age`
that stays unmatched disappears); and every age surviving the call is
`<= max_age`. -/
theorem assign_ids_aging (st : TrackerState) (dets : List Det)
    (frame : Nat) (hinv : TrackerInv st) (hcov : Covers st)
    (hthr : st.iou_threshold = 3 / 10) :
    (∀ i a, alookup st.ages i = some a →
      i ∉ (assign_ids st dets frame).1.map Prod.fst →
      (a + 1 ≤ st.max_age →
        alookup (assign_ids st dets frame).2.ages i = some (a + 1)) ∧
      (st.max_age < a + 1 →
        alookup (assign_ids st dets frame).2.ages i = none ∧
        alookup (assign_ids st dets frame).2.boxes_2d i = none ∧
        alookup (assign_ids st dets frame).2.positions_3d i = none ∧
        alookup (assign_ids st dets frame).2.timestamps i = none)) ∧
    (∀ i a, alookup (assign_ids st dets frame).2.ages i = some a →
      a ≤ st.max_age) := by
  have hthr0 : 0 ≤ st.iou_threshold := by
    rw [hthr]
    norm_num
  obtain ⟨hS, hLI, hMem, hStable, hOut⟩ :=
    assignLoop_spec frame st hinv hcov hthr0 dets st [] (loopInv_init st hinv)
  have hnd1 : (keys (bumpAges (assignLoop frame st [] dets).2.1.ages
      (assignLoop frame st [] dets).2.2)).Nodup := by
    rw [keys_bumpAges]
    exact hLI.nd_a
  constructor
  · intro i a ha hiu
    rw [assign_ids_fst] at hiu
    have hiu' : i ∉ (assignLoop frame st [] dets).2.2 := by
      intro h
      rcases (hMem i).1 h with h | h
      · exact hiu h
      · simp at h
    have hstL : alookup (assignLoop frame st [] dets).2.1.ages i =
        some a := (hLI.looka i hiu').trans ha
    have hbump : alookup (bumpAges (assignLoop frame st [] dets).2.1.ages
        (assignLoop frame st [] dets).2.2) i = some (a + 1) := by
      rw [alookup_bumpAges_not_mem _ _ _ hiu', hstL]
      rfl
    constructor
    · intro hle
      have hact : i ∈ activeIds
          (bumpAges (assignLoop frame st [] dets).2.1.ages
            (assignLoop frame st [] dets).2.2)
          (assignLoop frame st [] dets).2.1.max_age :=
        (mem_activeIds _ _ _ hnd1).2 ⟨a + 1, hbump, by
          rw [hLI.mage]
          exact hle⟩
      rw [assign_ids_snd, purge_ages, alookup_rebuild, if_pos hact]
      exact hbump
    · intro hgt
      have hact : i ∉ activeIds
          (bumpAges (assignLoop frame st [] dets).2.1.ages
            (assignLoop frame st [] dets).2.2)
          (assignLoop frame st [] dets).2.1.max_age := by
        intro hmem
        obtain ⟨a', ha', hle'⟩ := (mem_activeIds _ _ _ hnd1).1 hmem
        rw [hbump] at ha'
        cases ha'
        rw [hLI.mage] at hle'
        exact absurd hle' (not_le.2 hgt)
      rw [assign_ids_snd, purge_ages, purge_boxes, purge_positions,
        purge_timestamps, alookup_rebuild, alookup_rebuild,
        alookup_rebuild, alookup_rebuild, if_neg hact, if_neg hact,
        if_neg hact, if_neg hact]
      exact ⟨rfl, rfl, rfl, rfl⟩
  · intro i a ha
    rw [assign_ids_snd, purge_ages, alookup_rebuild] at ha
    by_cases hact : i ∈ activeIds
        (bumpAges (assignLoop frame st [] dets).2.1.ages
          (assignLoop frame st [] dets).2.2)
        (assignLoop frame st [] dets).2.1.max_age
    · rw [if_pos hact] at ha
      obtain ⟨a', ha', hle'⟩ := (mem_activeIds _ _ _ hnd1).1 hact
      rw [ha] at ha'
      cases ha'
      rw [hLI.mage] at hle'
      exact hle'
    · rw [if_neg hact] at ha
      exact Option.noConfusion ha

/-- Witness for C3: a tracker holding one track (id 0, age 3, last seen
in frame 5) that goes unmatched in frame 6 (no detections) leaves the
call with age 4. -/
theorem assign_ids_aging_witness :
    alookup (assign_ids ⟨1, [(0, ⟨0, 0, 10, 10⟩)], [(0, ⟨0, 0, 1⟩)],
      [(0, 5)], [(0, 3)], 3 / 10, 30⟩ [] 6).2.ages 0 = some 4 := by
  have hinv : TrackerInv ⟨1, [(0, ⟨0, 0, 10, 10⟩)], [(0, ⟨0, 0, 1⟩)],
      [(0, 5)], [(0, 3)], 3 / 10, 30⟩ := by
    refine ⟨?_, ?_, ?_, ?_, ?_, ?_, ?_, ?_⟩ <;> simp [keys]
  have hcov : Covers ⟨1, [(0, ⟨0, 0, 10, 10⟩)], [(0, ⟨0, 0, 1⟩)],
      [(0, 5)], [(0, 3)], 3 / 10, 30⟩ := by
    intro k hk
    simp [keys] at hk
    subst hk
    simp [keys]
  have h := (assign_ids_aging ⟨1, [(0, ⟨0, 0, 10, 10⟩)], [(0, ⟨0, 0, 1⟩)],
      [(0, 5)], [(0, 3)], 3 / 10, 30⟩ [] 6 hinv hcov rfl).1 0 3
    (by simp [alookup]) (by simp [assign_ids, assignLoop])
  exact h.1 (by norm_num)

/-! ## MentalMap3D (the world model) -/

/-- A world-model entry (`MentalMap3D.map[obj_id]`): latest class,
position, velocity and wall-clock time of the last sighting. -/
structure MMEntry where
  cls : String
  position : Vec3
  velocity : Vec3
  last_seen : ℚ

/-- `MentalMap3D.update`: upsert every tracked `(id, det)` pair with the
current wall-clock time, then keep only the entries with
`current_time - last_seen <= keep_seconds`. -/
def mentalMapUpdate (m : AList MMEntry) (keep_seconds : ℚ)
    (tracked : List (Nat × TrackedDet)) (current_time : ℚ) :
    AList MMEntry :=
  let m1 := tracked.foldl
    (fun acc p =>
      aset acc p.1 ⟨p.2.cls, p.2.pos3d, p.2.velocity, current_time⟩) m
  m1.filter (fun p => current_time - p.2.last_seen ≤ keep_seconds)

theorem alookup_upsert_fold_not_mem (tracked : List (Nat × TrackedDet))
    (now : ℚ) :
    ∀ (m : AList MMEntry) (k : Nat), k ∉ tracked.map Prod.fst →
      alookup (tracked.foldl
        (fun acc p =>
          aset acc p.1 ⟨p.2.cls, p.2.pos3d, p.2.velocity, now⟩) m) k =
      alookup m k := by
  induction tracked with
  | nil => intro m k _; rfl
  | cons p rest ih =>
    intro m k hk
    simp only [List.map_cons, List.mem_cons] at hk
    push_neg at hk
    rw [List.foldl_cons, ih _ k hk.2,
      alookup_aset_ne _ _ (fun he => hk.1 he)]

theorem alookup_upsert_fold_mem (tracked : List (Nat × TrackedDet))
    (now : ℚ) :
    ∀ (m : AList MMEntry) (k : Nat), k ∈ tracked.map Prod.fst →
      ∃ d', (k, d') ∈ tracked ∧
        alookup (tracked.foldl
          (fun acc p =>
            aset acc p.1 ⟨p.2.cls, p.2.pos3d, p.2.velocity, now⟩) m) k =
        some ⟨d'.cls, d'.pos3d, d'.velocity, now⟩ := by
  induction tracked with
  | nil => intro m k hk; simp at hk
  | cons p rest ih =>
    intro m k hk
    by_cases hr : k ∈ rest.map Prod.fst
    · obtain ⟨d', hmem, hlook⟩ := ih _ k hr
      exact ⟨d', List.mem_cons_of_mem _ hmem, hlook⟩
    · have hpk : p.1 = k := by
        simp only [List.map_cons, List.mem_cons] at hk
        rcases hk with hk | hk
        · exact hk.symm
        · exact absurd hk hr
      refine ⟨p.2, ?_, ?_⟩
      · rw [← hpk]
        exact List.mem_cons_self _ _
      · rw [List.foldl_cons, alookup_upsert_fold_not_mem rest now _ k hr,
          hpk, alookup_aset_self]

theorem nodup_keys_upsert_fold (tracked : List (Nat × TrackedDet))
    (now : ℚ) :
    ∀ (m : AList MMEntry), (keys m).Nodup →
      (keys (tracked.foldl
        (fun acc p =>
          aset acc p.1 ⟨p.2.cls, p.2.pos3d, p.2.velocity, now⟩) m)).Nodup := by
  induction tracked with
  | nil => intro m hm; exact hm
  | cons p rest ih =>
    intro m hm
    rw [List.foldl_cons]
    exact ih _ (nodup_keys_aset _ _ hm)

theorem alookup_list_filter {α : Type} (pred : Nat × α → Bool)
    (k : Nat) :
    ∀ (l : AList α), (keys l).Nodup →
      alookup (l.filter pred) k =
        (alookup l k).bind
          (fun v => if pred (k, v) then some v else none) := by
  intro l
  induction l with
  | nil => intro _; rfl
  | cons p rest ih =>
    intro hnd
    obtain ⟨a, b⟩ := p
    rw [keys_cons, List.nodup_cons] at hnd
    have hsub : List.Sublist (keys (rest.filter pred)) (keys rest) :=
      (List.filter_sublist rest).map Prod.fst
    by_cases hp : a = k
    · subst hp
      by_cases hpred : pred (a, b)
      · rw [List.filter_cons_of_pos hpred]
        simp [alookup, hpred]
      · rw [List.filter_cons_of_neg hpred]
        have hnone : alookup (rest.filter pred) a = none := by
          rw [alookup_eq_none]
          intro hmem
          exact hnd.1 (hsub.mem hmem)
        rw [hnone]
        simp [alookup, hpred]
    · by_cases hpred : pred (a, b)
      · rw [List.filter_cons_of_pos hpred]
        have h1 : alookup ((a, b) :: rest.filter pred) k =
            alookup (rest.filter pred) k := by
          simp [alookup, hp]
        have h2 : alookup ((a, b) :: rest) k = alookup rest k := by
          simp [alookup, hp]
        rw [h1, h2, ih hnd.2]
      · rw [List.filter_cons_of_neg hpred]
        have h2 : alookup ((a, b) :: rest) k = alookup rest k := by
          simp [alookup, hp]
        rw [h2, ih hnd.2]

/-- C4: after `MentalMap3D.update`, every reported `(id, detection)` pair
has been upserted with the current wall-clock time (the surviving value
being the last reported detection for that id); every surviving entry
satisfies `now - last_seen <= keep_seconds`; and an id not reported this
call whose stored entry is older than `keep_seconds` is absent from the
new snapshot. -/
theorem mentalMap_update_spec (m : AList MMEntry) (keep : ℚ)
    (tracked : List (Nat × TrackedDet)) (now : ℚ)
    (hnd : (keys m).Nodup) (hkeep : 0 ≤ keep) :
    (∀ i d, (i, d) ∈ tracked →
      ∃ d', (i, d') ∈ tracked ∧
        alookup (mentalMapUpdate m keep tracked now) i =
          some ⟨d'.cls, d'.pos3d, d'.velocity, now⟩) ∧
    (∀ p ∈ mentalMapUpdate m keep tracked now,
      now - p.2.last_seen ≤ keep) ∧
    (∀ i, i ∉ tracked.map Prod.fst →
      (∀ e, alookup m i = some e → keep < now - e.last_seen) →
      alookup (mentalMapUpdate m keep tracked now) i = none) := by
  have hnd1 := nodup_keys_upsert_fold tracked now m hnd
  refine ⟨?_, ?_, ?_⟩
  · intro i d hmem
    have hk : i ∈ tracked.map Prod.fst := List.mem_map.2 ⟨(i, d), hmem, rfl⟩
    obtain ⟨d', hmem', hlook⟩ := alookup_upsert_fold_mem tracked now m i hk
    refine ⟨d', hmem', ?_⟩
    rw [mentalMapUpdate, alookup_list_filter _ _ _ hnd1, hlook]
    simp [Option.bind, hkeep]
  · intro p hp
    have := (List.mem_filter.1 hp).2
    exact of_decide_eq_true this
  · intro i hi hold
    rw [mentalMapUpdate, alookup_list_filter _ _ _ hnd1,
      alookup_upsert_fold_not_mem tracked now m i hi]
    cases he : alookup m i with
    | none => rfl
    | some e =>
      have hlt := hold e he
      simp [Option.bind, not_le.2 hlt]

/-- Witness for C4: with `keep_seconds = 5`, an entry last seen at time 0
that is not reported again is gone from the snapshot taken at time 10. -/
theorem mentalMap_update_witness :
    alookup (mentalMapUpdate
      [(0, ⟨"person", ⟨0, 0, 1⟩, ⟨0, 0, 0⟩, 0⟩)] 5
      [(1, ⟨⟨0, 0, 10, 10⟩, "car", ⟨1, 0, 2⟩, ⟨0, 0, 0⟩⟩)] 10) 0 =
      none := by
  refine (mentalMap_update_spec
    [(0, ⟨"person", ⟨0, 0, 1⟩, ⟨0, 0, 0⟩, 0⟩)] 5
    [(1, ⟨⟨0, 0, 10, 10⟩, "car", ⟨1, 0, 2⟩, ⟨0, 0, 0⟩⟩)] 10
    (by simp [keys]) (by norm_num)).2.2 0 (by simp) ?_
  intro e he
  have he' : some (⟨"person", ⟨0, 0, 1⟩, ⟨0, 0, 0⟩, 0⟩ : MMEntry) =
      some e := he
  injection he' with h
  rw [← h]
  norm_num

/-! ## Real-valued helpers: norms and arctan2 -/

/-- `np.linalg.norm` of a 3-vector. -/
noncomputable def norm3 (v : Vec3) : ℝ :=
  Real.sqrt ((v.x : ℝ) ^ 2 + (v.y : ℝ) ^ 2 + (v.z : ℝ) ^ 2)

theorem norm3_nonneg (v : Vec3) : 0 ≤ norm3 v := Real.sqrt_nonneg _

/-- `np.arctan2 y x`: the four-quadrant arctangent. -/
noncomputable def arctan2 (y x : ℝ) : ℝ :=
  if 0 < x then Real.arctan (y / x)
  else if x < 0 then
    (if 0 ≤ y then Real.arctan (y / x) + Real.pi
     else Real.arctan (y / x) - Real.pi)
  else
    (if 0 < y then Real.pi / 2 else if y < 0 then -(Real.pi / 2) else 0)

theorem arctan2_pos_x (y x : ℝ) (hx : 0 < x) :
    arctan2 y x = Real.arctan (y / x) := if_pos hx

/-! ## prioritize_objects (the semantic prioritization engine) -/

/-- The fixed class-to-importance table of `prioritize_objects`
(`.get(info["class"], 2)`). -/
def type_score (c : String) : ℚ :=
  if c = "person" then 5
  else if c = "car" then 6
  else if c = "truck" then 6
  else if c = "bus" then 6
  else if c = "bicycle" then 4
  else if c = "motorcycle" then 5
  else if c = "traffic light" then 3
  else if c = "stop sign" then 4
  else if c = "bench" then 2
  else if c = "chair" then 2
  else if c = "dog" then 4
  else if c = "cat" then 3
  else 2

/-- The per-entry score of `prioritize_objects`:
`(0.3*type_score + 0.3*(1/(distance+0.5)) + 0.2*velocity_score +
0.2*urgency) * fov_factor`. -/
noncomputable def objScore (e : MMEntry) : ℝ :=
  let distance := norm3 e.position
  let velocity_magnitude := norm3 e.velocity
  let velocity_score : ℝ :=
    if velocity_magnitude > 0.01 then max 0 (-(e.velocity.z : ℝ)) else 0
  let fov_angle := arctan2 |(e.position.x : ℝ)| (max (e.position.z : ℝ) 0.1)
  let fov_factor : ℝ := if fov_angle < Real.pi / 4 then 1 else 0.5
  let urgency : ℝ := if distance < 2 then 1 else 0.5
  (0.3 * (type_score e.cls : ℝ) + 0.3 * (1 / (distance + 0.5)) +
    0.2 * velocity_score + 0.2 * urgency) * fov_factor

/-- The sort key of `scored_objects.sort(reverse=True, key=...)`: `a` may
come before `b` when `b`'s score is not larger. -/
noncomputable def scoreLe (a b : ℝ × Nat × MMEntry) : Bool :=
  decide (b.1 ≤ a.1)

/-- `prioritize_objects` (the unused `user_forward` parameter is
omitted): score every entry in map order, sort stably by descending
score, return `(obj_id, info)` for the first `top_n`. -/
noncomputable def prioritize_objects (mental_map : AList MMEntry)
    (top_n : Nat) : AList MMEntry :=
  let scored_objects := mental_map.map (fun p => (objScore p.2, p.1, p.2))
  let sorted := scored_objects.mergeSort scoreLe
  (sorted.take top_n).map (fun q => (q.2.1, q.2.2))

/-- C5's score formula in the spec's own phrasing: typeScore from the
fixed table (unlisted classes 2), distance the norm of position,
velocityScore `max(0, -vz)` when the velocity magnitude exceeds 0.01 and
0 otherwise, fovFactor 1.0 when `atan2(|x|, max(z, 0.1))` is under 45
degrees and 0.5 otherwise, urgencyBonus 1.0 when distance < 2.0 and 0.5
otherwise, combined as
`(0.3*typeScore + 0.3/(distance+0.5) + 0.2*velocityScore +
0.2*urgencyBonus) * fovFactor`. -/
noncomputable def specScore (e : MMEntry) : ℝ :=
  let typeScore : ℝ := (type_score e.cls : ℝ)
  let distance := norm3 e.position
  let velocityScore : ℝ :=
    if norm3 e.velocity > 0.01 then max 0 (-(e.velocity.z : ℝ)) else 0
  let fovFactor : ℝ :=
    if arctan2 |(e.position.x : ℝ)| (max (e.position.z : ℝ) 0.1) <
        Real.pi / 180 * 45 then 1 else 0.5
  let urgencyBonus : ℝ := if distance < 2 then 1 else 0.5
  (0.3 * typeScore + 0.3 / (distance + 0.5) + 0.2 * velocityScore +
    0.2 * urgencyBonus) * fovFactor

theorem scoreLe_trans (a b c : ℝ × Nat × MMEntry) :
    scoreLe a b → scoreLe b c → scoreLe a c := by
  simp only [scoreLe, decide_eq_true_eq]
  exact fun h1 h2 => le_trans h2 h1

theorem scoreLe_total (a b : ℝ × Nat × MMEntry) :
    scoreLe a b || scoreLe b a := by
  simp only [scoreLe]
  rcases le_total b.1 a.1 with h | h <;> simp [h]

/-- C5: `prioritize_objects` returns at most `top_n` entries, their
scores are non-increasing in output order, and the score of every entry
equals the spec's formula (`objScore = specScore`). -/
theorem prioritize_objects_spec :
    (∀ (m : AList MMEntry) (top_n : Nat),
      (prioritize_objects m top_n).length ≤ top_n) ∧
    (∀ (m : AList MMEntry) (top_n : Nat),
      ((prioritize_objects m top_n).map (fun p => objScore p.2)).Pairwise
        (fun a b => b ≤ a)) ∧
    (∀ e : MMEntry, objScore e = specScore e) := by
  refine ⟨?_, ?_, ?_⟩
  · intro m top_n
    simp [prioritize_objects, List.length_take]
  · intro m top_n
    have hsorted := List.sorted_mergeSort scoreLe_trans
      scoreLe_total (m.map (fun p => (objScore p.2, p.1, p.2)))
    have htake : List.Sublist
        (((m.map (fun p => (objScore p.2, p.1, p.2))).mergeSort
          scoreLe).take top_n)
        ((m.map (fun p => (objScore p.2, p.1, p.2))).mergeSort scoreLe) :=
      List.take_sublist _ _
    have hPW := hsorted.sublist htake
    have hmem : ∀ q ∈ ((m.map
        (fun p => (objScore p.2, p.1, p.2))).mergeSort scoreLe).take top_n,
        q.1 = objScore q.2.2 := by
      intro q hq
      have hq2 : q ∈ (m.map (fun p => (objScore p.2, p.1, p.2))).mergeSort
          scoreLe := htake.mem hq
      have hq3 : q ∈ m.map (fun p => (objScore p.2, p.1, p.2)) :=
        (List.mergeSort_perm _ scoreLe).mem_iff.1 hq2
      obtain ⟨p, _, he⟩ := List.mem_map.1 hq3
      rw [← he]
    rw [prioritize_objects]
    simp only [List.map_map]
    rw [List.pairwise_map]
    refine hPW.imp_of_mem ?_
    intro a b ha hb hle
    have h1 := hmem a ha
    have h2 := hmem b hb
    simp only [scoreLe, decide_eq_true_eq] at hle
    show objScore b.2.2 ≤ objScore a.2.2
    rw [← h1, ← h2]
    exact hle
  · intro e
    simp only [objScore, specScore]
    rw [mul_one_div, show (Real.pi / 180 * 45 : ℝ) = Real.pi / 4 by ring]

/-! ## analyze_situation (the contextual situation analyzer) -/

/-- An element of `situation["urgent_alerts"]`. -/
structure SituationAlert where
  obj : String
  direction : String
  urgency : String
  distance : ℝ

/-- An element of `situation["moving_objects"]`. -/
structure SituationMoving where
  obj : String
  direction : String
  distance : ℝ

/-- An element of `situation["obstacles"]`. -/
structure SituationObstacle where
  obj : String
  distance : ℝ

/-- The situation report built by `analyze_situation`. -/
structure Situation where
  urgent_alerts : List SituationAlert
  path_status : String
  obstacles : List SituationObstacle
  moving_objects : List SituationMoving

/-- Lateral direction classification: `left` if `x < -0.5`, `right` if
`x > 0.5`, else `ahead`. -/
def direction_of (x : ℚ) : String :=
  if x < -0.5 then "left" else if 0.5 < x then "right" else "ahead"

/-- The urgency label: `very close` under 1.5 m, `approaching quickly`
under 2.5 m, else `approaching`. -/
noncomputable def urgencyLabel (distance : ℝ) : String :=
  if distance < 1.5 then "very close"
  else if distance < 2.5 then "approaching quickly"
  else "approaching"

section AnalyzeDefs

open Classical

/-- `velocity_magnitude > 0.05`. -/
noncomputable def entryMoving (e : MMEntry) : Prop := norm3 e.velocity > 0.05

/-- `is_approaching = vel[2] < -0.02 if is_moving else False`. -/
noncomputable def entryApproaching (e : MMEntry) : Prop :=
  if entryMoving e then (e.velocity.z : ℚ) < -0.02 else False

/-- The corridor test of the path-status loop:
`abs(x) < 0.7 and z > 0 and distance < 3.0`. -/
noncomputable def blocksPath (e : MMEntry) : Prop :=
  |e.position.x| < 0.7 ∧ 0 < e.position.z ∧ norm3 e.position < 3

/-- The per-entry classification branch of `analyze_situation`: an
approaching entry within 3 m is an urgent alert; else a moving entry
within 4 m is a moving object; else a non-moving entry ahead within 3 m
is an obstacle. -/
noncomputable def analyzeStep (acc : Situation) (p : Nat × MMEntry) :
    Situation :=
  let e := p.2
  let distance := norm3 e.position
  let direction := direction_of e.position.x
  if entryApproaching e ∧ distance < 3 then
    { acc with urgent_alerts := acc.urgent_alerts ++
        [⟨e.cls, direction, urgencyLabel distance, distance⟩] }
  else if entryMoving e ∧ distance < 4 then
    { acc with moving_objects := acc.moving_objects ++
        [⟨e.cls, direction, distance⟩] }
  else if ¬ entryMoving e ∧ direction = "ahead" ∧ distance < 3 then
    { acc with obstacles := acc.obstacles ++ [⟨e.cls, distance⟩] }
  else acc

/-- `analyze_situation`: classify every entry, then run the separate
corridor loop that decides `path_status`. -/
noncomputable def analyze_situation (m : AList MMEntry) : Situation :=
  let s := m.foldl analyzeStep ⟨[], "clear", [], []⟩
  let ahead_clear : Prop := ∀ p ∈ m, ¬ blocksPath p.2
  { s with path_status := if ahead_clear then "clear" else "blocked" }

theorem analyze_situation_path_eq (m : AList MMEntry) :
    (analyze_situation m).path_status =
      if ∀ p ∈ m, ¬ blocksPath p.2 then "clear" else "blocked" := rfl

theorem analyze_situation_urgent_eq (m : AList MMEntry) :
    (analyze_situation m).urgent_alerts =
      (m.foldl analyzeStep ⟨[], "clear", [], []⟩).urgent_alerts := rfl

theorem analyze_situation_moving_eq (m : AList MMEntry) :
    (analyze_situation m).moving_objects =
      (m.foldl analyzeStep ⟨[], "clear", [], []⟩).moving_objects := rfl

theorem analyze_situation_obstacles_eq (m : AList MMEntry) :
    (analyze_situation m).obstacles =
      (m.foldl analyzeStep ⟨[], "clear", [], []⟩).obstacles := rfl

/-- C6: `analyze_situation` reports `path_status = "blocked"` iff some
entry satisfies `|x| < 0.7` and `z > 0` and `distance < 3.0`; in
particular a lone entry at `x = 0, z = 1` with distance below 3 yields
`blocked`, and a lone entry at `x = 2, z = 1` yields `clear`. -/
theorem analyze_path_status :
    (∀ m : AList MMEntry,
      (analyze_situation m).path_status = "blocked" ↔
        ∃ p ∈ m, |p.2.position.x| < 0.7 ∧ 0 < p.2.position.z ∧
          norm3 p.2.position < 3) ∧
    (∀ (i : Nat) (cls : String) (y : ℚ) (vel : Vec3),
      norm3 ⟨0, y, 1⟩ < 3 →
      (analyze_situation [(i, ⟨cls, ⟨0, y, 1⟩, vel, 0⟩)]).path_status =
        "blocked") ∧
    (∀ (i : Nat) (cls : String) (y : ℚ) (vel : Vec3),
      (analyze_situation [(i, ⟨cls, ⟨2, y, 1⟩, vel, 0⟩)]).path_status =
        "clear") := by
  have hiff : ∀ m : AList MMEntry,
      (analyze_situation m).path_status = "blocked" ↔
        ∃ p ∈ m, blocksPath p.2 := by
    intro m
    rw [analyze_situation_path_eq]
    by_cases hc : ∀ p ∈ m, ¬ blocksPath p.2
    · rw [if_pos hc]
      constructor
      · intro h
        exact absurd h (by decide)
      · rintro ⟨p, hp, hb⟩
        exact absurd hb (hc p hp)
    · rw [if_neg hc]
      push_neg at hc
      obtain ⟨p, hp, hb⟩ := hc
      exact ⟨fun _ => ⟨p, hp, hb⟩, fun _ => rfl⟩
  refine ⟨fun m => (hiff m).trans (by rfl), ?_, ?_⟩
  · intro i cls y vel hdist
    refine (hiff _).2 ⟨(i, ⟨cls, ⟨0, y, 1⟩, vel, 0⟩),
      List.mem_singleton.2 rfl, ?_, ?_, hdist⟩
    · show |(0 : ℚ)| < 0.7
      norm_num
    · show (0 : ℚ) < 1
      norm_num
  · intro i cls y vel
    rw [analyze_situation_path_eq, if_pos]
    rintro p hp
    rcases List.mem_singleton.1 hp with rfl
    rintro ⟨habs, -, -⟩
    have h2 : |(2 : ℚ)| = 2 := abs_of_nonneg (by norm_num)
    rw [show ((⟨cls, ⟨2, y, 1⟩, vel, 0⟩ : MMEntry)).position.x = 2
      from rfl, h2] at habs
    norm_num at habs

/-- Witness for C6: one entry dead ahead at `(0, 0, 1)` (distance 1)
blocks the path. -/
theorem analyze_path_status_witness :
    (analyze_situation
      [(0, ⟨"person", ⟨0, 0, 1⟩, ⟨0, 0, 0⟩, 0⟩)]).path_status =
      "blocked" := by
  have h1 : norm3 ⟨0, 0, 1⟩ = 1 := by
    rw [norm3]
    push_cast
    norm_num
  exact analyze_path_status.2.1 0 "person" 0 ⟨0, 0, 0⟩ (by
    rw [h1]
    norm_num)

theorem analyzeStep_count (acc : Situation) (p : Nat × MMEntry) :
    (analyzeStep acc p).urgent_alerts.length +
      (analyzeStep acc p).moving_objects.length +
      (analyzeStep acc p).obstacles.length ≤
    acc.urgent_alerts.length + acc.moving_objects.length +
      acc.obstacles.length + 1 := by
  simp only [analyzeStep]
  split_ifs <;> simp <;> omega

theorem analyzeFold_count (m : AList MMEntry) :
    ∀ acc : Situation,
      (m.foldl analyzeStep acc).urgent_alerts.length +
        (m.foldl analyzeStep acc).moving_objects.length +
        (m.foldl analyzeStep acc).obstacles.length ≤
      acc.urgent_alerts.length + acc.moving_objects.length +
        acc.obstacles.length + m.length := by
  induction m with
  | nil => intro acc; simp
  | cons p rest ih =>
    intro acc
    rw [List.foldl_cons]
    have h1 := ih (analyzeStep acc p)
    have h2 := analyzeStep_count acc p
    simp only [List.length_cons]
    omega

theorem analyze_singleton_urgent (i : Nat) (e : MMEntry)
    (happ : entryApproaching e) (hd : norm3 e.position < 3) :
    (analyze_situation [(i, e)]).urgent_alerts.length = 1 ∧
    (analyze_situation [(i, e)]).moving_objects = [] ∧
    (analyze_situation [(i, e)]).obstacles = [] := by
  have hstep : analyzeStep ⟨[], "clear", [], []⟩ (i, e) =
      ⟨[⟨e.cls, direction_of e.position.x,
        urgencyLabel (norm3 e.position), norm3 e.position⟩],
        "clear", [], []⟩ := by
    simp only [analyzeStep]
    rw [if_pos (⟨happ, hd⟩ : entryApproaching e ∧ norm3 e.position < 3)]
    simp
  refine ⟨?_, ?_, ?_⟩
  · rw [analyze_situation_urgent_eq, List.foldl_cons, List.foldl_nil,
      hstep]
    rfl
  · rw [analyze_situation_moving_eq, List.foldl_cons, List.foldl_nil,
      hstep]
  · rw [analyze_situation_obstacles_eq, List.foldl_cons, List.foldl_nil,
      hstep]

theorem analyze_singleton_moving (i : Nat) (e : MMEntry)
    (hmov : entryMoving e) (hnapp : ¬ entryApproaching e)
    (hd : norm3 e.position < 3) :
    (analyze_situation [(i, e)]).moving_objects.length = 1 ∧
    (analyze_situation [(i, e)]).obstacles = [] := by
  have hd4 : norm3 e.position < 4 := lt_trans hd (by norm_num)
  have hstep : analyzeStep ⟨[], "clear", [], []⟩ (i, e) =
      ⟨[], "clear", [],
        [⟨e.cls, direction_of e.position.x, norm3 e.position⟩]⟩ := by
    simp only [analyzeStep]
    rw [if_neg (fun h => hnapp h.1),
      if_pos (⟨hmov, hd4⟩ : entryMoving e ∧ norm3 e.position < 4)]
    simp
  constructor
  · rw [analyze_situation_moving_eq, List.foldl_cons, List.foldl_nil,
      hstep]
    rfl
  · rw [analyze_situation_obstacles_eq, List.foldl_cons, List.foldl_nil,
      hstep]

/-- C9: the three classification branches of `analyze_situation` are
mutually exclusive — every entry contributes at most one item across the
three buckets (so the bucket sizes sum to at most the map size); in
particular an approaching entry within 3 m appears only as an urgent
alert (never as moving object or obstacle), and a moving non-approaching
entry within 3 m (even dead ahead) never appears as an obstacle. -/
theorem analyze_buckets_exclusive :
    (∀ m : AList MMEntry,
      (analyze_situation m).urgent_alerts.length +
        (analyze_situation m).moving_objects.length +
        (analyze_situation m).obstacles.length ≤ m.length) ∧
    (∀ (i : Nat) (e : MMEntry),
      entryApproaching e → norm3 e.position < 3 →
      (analyze_situation [(i, e)]).urgent_alerts.length = 1 ∧
      (analyze_situation [(i, e)]).moving_objects = [] ∧
      (analyze_situation [(i, e)]).obstacles = []) ∧
    (∀ (i : Nat) (e : MMEntry),
      entryMoving e → ¬ entryApproaching e → norm3 e.position < 3 →
      (analyze_situation [(i, e)]).moving_objects.length = 1 ∧
      (analyze_situation [(i, e)]).obstacles = []) := by
  refine ⟨?_, analyze_singleton_urgent, analyze_singleton_moving⟩
  intro m
  rw [analyze_situation_urgent_eq, analyze_situation_moving_eq,
    analyze_situation_obstacles_eq]
  have h := analyzeFold_count m ⟨[], "clear", [], []⟩
  simpa using h

/-- Witness for C9: an approaching car one metre ahead lands only in
`urgent_alerts`; a laterally moving dog one metre ahead lands only in
`moving_objects` (not in `obstacles`). -/
theorem analyze_buckets_exclusive_witness :
    (analyze_situation
      [(0, ⟨"car", ⟨0, 0, 1⟩, ⟨0, 0, -1⟩, 0⟩)]).moving_objects = [] ∧
    (analyze_situation
      [(0, ⟨"dog", ⟨0, 0, 1⟩, ⟨1, 0, 0⟩, 0⟩)]).obstacles = [] := by
  have hpos : norm3 ⟨0, 0, 1⟩ = 1 := by
    rw [norm3]
    push_cast
    norm_num
  have hv1 : norm3 ⟨0, 0, -1⟩ = 1 := by
    rw [norm3]
    push_cast
    norm_num
  have hv2 : norm3 ⟨1, 0, 0⟩ = 1 := by
    rw [norm3]
    push_cast
    norm_num
  have hm1 : entryMoving ⟨"car", ⟨0, 0, 1⟩, ⟨0, 0, -1⟩, 0⟩ := by
    show norm3 ⟨0, 0, -1⟩ > 0.05
    rw [hv1]
    norm_num
  have happ1 : entryApproaching ⟨"car", ⟨0, 0, 1⟩, ⟨0, 0, -1⟩, 0⟩ := by
    rw [entryApproaching, if_pos hm1]
    show ((-1 : ℚ) : ℚ) < -0.02
    norm_num
  have hm2 : entryMoving ⟨"dog", ⟨0, 0, 1⟩, ⟨1, 0, 0⟩, 0⟩ := by
    show norm3 ⟨1, 0, 0⟩ > 0.05
    rw [hv2]
    norm_num
  have hnapp2 : ¬ entryApproaching ⟨"dog", ⟨0, 0, 1⟩, ⟨1, 0, 0⟩, 0⟩ := by
    rw [entryApproaching, if_pos hm2]
    show ¬ ((0 : ℚ) : ℚ) < -0.02
    norm_num
  have hd : norm3 (⟨"car", ⟨0, 0, 1⟩, ⟨0, 0, -1⟩, 0⟩ : MMEntry).position
      < 3 := by
    show norm3 ⟨0, 0, 1⟩ < 3
    rw [hpos]
    norm_num
  have hd2 : norm3 (⟨"dog", ⟨0, 0, 1⟩, ⟨1, 0, 0⟩, 0⟩ : MMEntry).position
      < 3 := by
    show norm3 ⟨0, 0, 1⟩ < 3
    rw [hpos]
    norm_num
  exact ⟨(analyze_buckets_exclusive.2.1 0 _ happ1 hd).2.1,
    (analyze_buckets_exclusive.2.2 0 _ hm2 hnapp2 hd2).2⟩

end AnalyzeDefs

/-! ## generate_contextual_narration -/

/-- Rendering of one urgent alert:
`"<obj> very close on your <dir>"` when the urgency is `very close`,
else `"<obj> <urgency> from your <dir>"`. -/
def renderAlert (alert : SituationAlert) : String :=
  if alert.urgency = "very close" then
    alert.obj ++ " " ++ alert.urgency ++ " on your " ++ alert.direction
  else
    alert.obj ++ " " ++ alert.urgency ++ " from your " ++ alert.direction

/-- Rendering of one moving object: `"<obj> moving on your <dir>"`. -/
def renderMoving (mov : SituationMoving) : String :=
  mov.obj ++ " moving on your " ++ mov.direction

/-- Rendering of one obstacle: `"<obj> in path ahead"`. -/
def renderObstacle (obs : SituationObstacle) : String :=
  obs.obj ++ " in path ahead"

/-- The path-status clause appended after the hazard clauses. -/
def pathClause (s : Situation) : String :=
  if s.path_status = "clear" then "the way ahead is clear"
  else "obstacle in path"

/-- `str.join` over a separator, modelling `"; ".join(parts)`. -/
def joinSep (sep : String) : List String → String
  | [] => ""
  | [x] => x
  | x :: xs => x ++ sep ++ joinSep sep xs

/-- `generate_contextual_narration`: up to 2 urgent alerts, else up to 2
moving objects, else up to 1 obstacle; then exactly one path-status
clause; a total of 0 or 1 clauses collapses to the fixed phrase,
otherwise the first two clauses are joined with `"; "`. -/
def generate_contextual_narration (s : Situation) : String :=
  let narration_parts : List String :=
    if s.urgent_alerts.isEmpty then
      if s.moving_objects.isEmpty then
        if s.obstacles.isEmpty then []
        else (s.obstacles.take 1).map renderObstacle
      else (s.moving_objects.take 2).map renderMoving
    else (s.urgent_alerts.take 2).map renderAlert
  let narration_parts := narration_parts ++ [pathClause s]
  if narration_parts.isEmpty ∨ narration_parts.length = 1 then
    "Path is clear, no immediate hazards"
  else if narration_parts.length = 1 then narration_parts.headD ""
  else joinSep "; " (narration_parts.take 2)

/-- C7: a situation with no hazards at all yields the fixed phrase
(whatever the path status — the single path clause is collapsed); with
exactly one urgent alert the output is its clause joined to the path
clause; with two or more urgent alerts the output is the first two alert
clauses (the path clause and further alerts are dropped); with no urgent
alerts, one moving object renders its clause joined to the path clause
and two or more render exactly the first two moving clauses; with no
urgent alerts and no moving objects, one obstacle (further obstacles
are dropped) renders its clause joined to the path clause; and the two
concrete examples of the claim. -/
theorem narration_spec :
    (∀ s : Situation, s.urgent_alerts = [] → s.moving_objects = [] →
      s.obstacles = [] →
      generate_contextual_narration s =
        "Path is clear, no immediate hazards") ∧
    (∀ (s : Situation) (a : SituationAlert), s.urgent_alerts = [a] →
      generate_contextual_narration s =
        renderAlert a ++ "; " ++ pathClause s) ∧
    (∀ (s : Situation) (a b : SituationAlert)
      (rest : List SituationAlert), s.urgent_alerts = a :: b :: rest →
      generate_contextual_narration s =
        renderAlert a ++ "; " ++ renderAlert b) ∧
    (∀ (s : Situation) (m1 : SituationMoving), s.urgent_alerts = [] →
      s.moving_objects = [m1] →
      generate_contextual_narration s =
        renderMoving m1 ++ "; " ++ pathClause s) ∧
    (∀ (s : Situation) (m1 m2 : SituationMoving)
      (rest : List SituationMoving), s.urgent_alerts = [] →
      s.moving_objects = m1 :: m2 :: rest →
      generate_contextual_narration s =
        renderMoving m1 ++ "; " ++ renderMoving m2) ∧
    (∀ (s : Situation) (o : SituationObstacle)
      (rest : List SituationObstacle), s.urgent_alerts = [] →
      s.moving_objects = [] → s.obstacles = o :: rest →
      generate_contextual_narration s =
        renderObstacle o ++ "; " ++ pathClause s) ∧
    (generate_contextual_narration
      ⟨[⟨"car", "left", "very close", 1⟩], "blocked", [], []⟩ =
      "car very close on your left; obstacle in path") ∧
    (generate_contextual_narration ⟨[], "clear", [], []⟩ =
      "Path is clear, no immediate hazards") := by
  refine ⟨?_, ?_, ?_, ?_, ?_, ?_, ?_, rfl⟩
  · intro s hu hm ho
    simp [generate_contextual_narration, hu, hm, ho]
  · intro s a hu
    simp [generate_contextual_narration, hu, joinSep]
  · intro s a b rest hu
    simp [generate_contextual_narration, hu, joinSep]
  · intro s m1 hu hm
    simp [generate_contextual_narration, hu, hm, joinSep]
  · intro s m1 m2 rest hu hm
    simp [generate_contextual_narration, hu, hm, joinSep]
  · intro s o rest hu hm ho
    simp [generate_contextual_narration, hu, hm, ho, joinSep]
  · rfl

/-- Witness for C7 (the hypothesis-bearing conjuncts at concrete
situations): one urgent alert with a blocked path renders the alert
clause joined to the path clause; an alert-free report with a blocked
path still collapses to the fixed phrase; two urgent alerts render only
their own clauses; one and two moving objects render their clauses; and
a lone obstacle renders its clause joined to the path clause. -/
theorem narration_spec_witness :
    generate_contextual_narration
      ⟨[⟨"dog", "right", "approaching", 2⟩], "blocked", [], []⟩ =
      "dog approaching from your right; obstacle in path" ∧
    generate_contextual_narration ⟨[], "blocked", [], []⟩ =
      "Path is clear, no immediate hazards" ∧
    generate_contextual_narration
      ⟨[⟨"car", "left", "very close", 1⟩,
        ⟨"bus", "right", "approaching", 3⟩], "clear", [], []⟩ =
      "car very close on your left; bus approaching from your right" ∧
    generate_contextual_narration
      ⟨[], "clear", [], [⟨"person", "left", 2⟩]⟩ =
      "person moving on your left; the way ahead is clear" ∧
    generate_contextual_narration
      ⟨[], "blocked", [],
        [⟨"person", "left", 2⟩, ⟨"dog", "right", 1⟩]⟩ =
      "person moving on your left; dog moving on your right" ∧
    generate_contextual_narration
      ⟨[], "blocked", [⟨"chair", 2⟩], []⟩ =
      "chair in path ahead; obstacle in path" := by
  refine ⟨?_, ?_, ?_, ?_, ?_, ?_⟩
  · have h := narration_spec.2.1
      ⟨[⟨"dog", "right", "approaching", 2⟩], "blocked", [], []⟩
      ⟨"dog", "right", "approaching", 2⟩ rfl
    rw [h]
    rfl
  · exact narration_spec.1 ⟨[], "blocked", [], []⟩ rfl rfl rfl
  · have h := narration_spec.2.2.1
      ⟨[⟨"car", "left", "very close", 1⟩,
        ⟨"bus", "right", "approaching", 3⟩], "clear", [], []⟩
      ⟨"car", "left", "very close", 1⟩
      ⟨"bus", "right", "approaching", 3⟩ [] rfl
    rw [h]
    rfl
  · have h := narration_spec.2.2.2.1
      ⟨[], "clear", [], [⟨"person", "left", 2⟩]⟩
      ⟨"person", "left", 2⟩ rfl rfl
    rw [h]
    rfl
  · have h := narration_spec.2.2.2.2.1
      ⟨[], "blocked", [],
        [⟨"person", "left", 2⟩, ⟨"dog", "right", 1⟩]⟩
      ⟨"person", "left", 2⟩ ⟨"dog", "right", 1⟩ [] rfl rfl
    rw [h]
    rfl
  · have h := narration_spec.2.2.2.2.2.1
      ⟨[], "blocked", [⟨"chair", 2⟩], []⟩
      ⟨"chair", 2⟩ [] rfl rfl rfl
    rw [h]
    rfl

/-! ## IntelligentTTSEngine.speak (debounce and bounded queue) -/

/-- The producer-side state of `IntelligentTTSEngine`: the bounded
phrase queue (front = oldest), the last accepted text and its
timestamp. -/
structure TTSState where
  phrase_q : List String
  last_narration : String
  last_narration_time : ℚ

/-- The queue operations of `speak`: when the queue is full
(`maxsize = 5`), pop the oldest item (`get_nowait`), then enqueue the
text when there is room (`put_nowait`; a still-full queue raises
`queue.Full`, which is swallowed). -/
def pushBounded (q : List String) (text : String) : List String :=
  let q1 := if 5 ≤ q.length then q.drop 1 else q
  if q1.length < 5 then q1 ++ [text] else q1

/-- `IntelligentTTSEngine.speak(text, force)` at wall-clock `now`:
empty text returns immediately; without `force`, a text equal to the
last accepted one within 3 s is dropped; otherwise the debounce state is
updated and the text is enqueued, discarding the oldest queued item
first when the queue (capacity 5) is full. -/
def speak (st : TTSState) (text : String) (force : Bool) (now : ℚ) :
    TTSState :=
  if text = "" then st
  else if force = false ∧ text = st.last_narration ∧
      now - st.last_narration_time < 3 then st
  else
    { st with
      last_narration := text
      last_narration_time := now
      phrase_q := pushBounded st.phrase_q text }

/-- Counterexample to C8 as literally stated: with last accepted text
`"X"`, a call `speak("", force := false)` does not satisfy the claim's
debounce condition (the empty text differs from the last accepted text),
yet it is a complete no-op — the text is neither recorded as last
accepted nor pushed onto the queue, contradicting the claim's
"otherwise" branch. -/
theorem speak_empty_counterexample :
    ("" : String) ≠ "X" ∧
    speak ⟨[], "X", 0⟩ "" false 10 = ⟨[], "X", 0⟩ := by
  constructor
  · decide
  · rfl

/-- C8 (amended to nonempty text): the debounce no-op; acceptance
recording the new text and time and appending it to the queue after
dropping the oldest element when full (never exceeding 5 queued items);
the sixth-push scenario `[a,b,c,d,e] -> [b,c,d,e,text]`; and the
two-calls-within-3-seconds scenario where the second call is a no-op. -/
theorem speak_spec (st : TTSState) (text : String) (now : ℚ)
    (hne : text ≠ "") :
    (text = st.last_narration → now - st.last_narration_time < 3 →
      speak st text false now = st) ∧
    (∀ force : Bool,
      (force = true ∨
        ¬ (text = st.last_narration ∧
            now - st.last_narration_time < 3)) →
      (speak st text force now).last_narration = text ∧
      (speak st text force now).last_narration_time = now ∧
      (st.phrase_q.length ≤ 5 →
        (speak st text force now).phrase_q =
          (if 5 ≤ st.phrase_q.length then st.phrase_q.drop 1
           else st.phrase_q) ++ [text] ∧
        (speak st text force now).phrase_q.length ≤ 5)) ∧
    (∀ a b c d e : String, st.phrase_q = [a, b, c, d, e] →
      ¬ (text = st.last_narration ∧ now - st.last_narration_time < 3) →
      (speak st text false now).phrase_q = [b, c, d, e, text]) ∧
    (∀ now2 : ℚ, now2 - now < 3 →
      ¬ (text = st.last_narration ∧ now - st.last_narration_time < 3) →
      speak (speak st text false now) text false now2 =
        speak st text false now) := by
  have hacceptEq : ∀ (force : Bool),
      (force = true ∨
        ¬ (text = st.last_narration ∧
            now - st.last_narration_time < 3)) →
      speak st text force now =
        { phrase_q := pushBounded st.phrase_q text,
          last_narration := text, last_narration_time := now } := by
    intro force hcond
    rw [speak, if_neg hne]
    rw [if_neg]
    rintro ⟨hf, heq, hlt⟩
    rcases hcond with hcond | hcond
    · rw [hcond] at hf
      exact Bool.noConfusion hf
    · exact hcond ⟨heq, hlt⟩
  refine ⟨?_, ?_, ?_, ?_⟩
  · intro heq hlt
    rw [speak, if_neg hne, if_pos ⟨rfl, heq, hlt⟩]
  · intro force hcond
    rw [hacceptEq force hcond]
    refine ⟨rfl, rfl, ?_⟩
    intro hlen
    show pushBounded st.phrase_q text = _ ∧
      (pushBounded st.phrase_q text).length ≤ 5
    rw [pushBounded]
    by_cases hfull : 5 ≤ st.phrase_q.length
    · rw [if_pos hfull]
      have hq1 : (st.phrase_q.drop 1).length < 5 := by
        rw [List.length_drop]
        omega
      rw [if_pos hq1]
      refine ⟨rfl, ?_⟩
      rw [List.length_append, List.length_drop]
      simp only [List.length_cons, List.length_nil]
      omega
    · rw [if_neg hfull]
      have hq1 : st.phrase_q.length < 5 := by omega
      rw [if_pos hq1]
      refine ⟨rfl, ?_⟩
      rw [List.length_append]
      simp only [List.length_cons, List.length_nil]
      omega
  · intro a b c d e hq hcond
    rw [hacceptEq false (Or.inr hcond)]
    show pushBounded st.phrase_q text = _
    rw [hq]
    rfl
  · intro now2 h3 hcond
    rw [hacceptEq false (Or.inr hcond)]
    rw [speak, if_neg hne, if_pos ⟨rfl, rfl, h3⟩]

/-- Witness for C8: with last text `"prev"` (no debounce hit) and a full
queue `[a, b, c, d, e]`, pushing `"f"` drops `"a"` and appends `"f"`;
and a repeat `speak("f")` 2 s later is a no-op. -/
theorem speak_spec_witness :
    (speak ⟨["a", "b", "c", "d", "e"], "prev", 0⟩ "f" false 10).phrase_q =
      ["b", "c", "d", "e", "f"] ∧
    speak (speak ⟨["a", "b", "c", "d", "e"], "prev", 0⟩ "f" false 10)
      "f" false 12 =
      speak ⟨["a", "b", "c", "d", "e"], "prev", 0⟩ "f" false 10 := by
  have hne : ("f" : String) ≠ "" := by decide
  have hcond : ¬ (("f" : String) = "prev" ∧ (10 : ℚ) - 0 < 3) := by
    rintro ⟨h, -⟩
    exact absurd h (by decide)
  constructor
  · exact (speak_spec ⟨["a", "b", "c", "d", "e"], "prev", 0⟩ "f" 10
      hne).2.2.1 "a" "b" "c" "d" "e" rfl hcond
  · exact (speak_spec ⟨["a", "b", "c", "d", "e"], "prev", 0⟩ "f" 10
      hne).2.2.2 12 (by norm_num) hcond

/-- C10: `speak` with empty text is a no-op for every force flag, every
time and every state: nothing is enqueued and the debounce state is
untouched. -/
theorem speak_empty_noop (st : TTSState) (force : Bool) (now : ℚ) :
    speak st "" force now = st := by
  rw [speak, if_pos rfl]

end CalmCopilot
